import Mathlib

/-!
Verification development for the `segmentedproxy` forward HTTP/HTTPS proxy.

The Python sources are shallowly embedded: pure fragments become Lean
functions; socket reads, the system DNS facility and the random number
generator become explicit oracle parameters (a list of received buffers, a
`String → Bool` predicate, a `Nat → Nat` stream of draws); Python exceptions
become `Except String`.  Bytes are modelled as `Nat` values, byte strings as
`List Nat`.  Python's `str.lower`/`str.upper` are modelled with Lean's
ASCII-only `Char.toLower`/`Char.toUpper`; hostnames and rule text in this
development are ASCII, where the two agree.
-/

namespace SegProxy

/-- Byte string of an ASCII Lean string (each char's code point). -/
def bytesOfString (s : String) : List Nat := s.data.map Char.toNat

/-- The two-byte CRLF sequence. -/
def CRLF : List Nat := [13, 10]

/-! ## Python string primitives used by the sources -/

/-- Python `str.strip()` whitespace set (ASCII part). -/
def pyIsSpace (c : Char) : Bool :=
  c = ' ' || c = '\t' || c = '\n' || c = '\r' || c = '\x0b' || c = '\x0c'

/-- Drop, at both ends, the characters satisfying `p` (Python `str.strip(chars)`).
Note Python's `strip` removes matching characters from the *leading and the
trailing* end of the string. -/
def stripWith (p : Char → Bool) (s : String) : String :=
  ⟨((s.data.dropWhile p).reverse.dropWhile p).reverse⟩

/-- Python `str.strip()` (default whitespace). -/
def pyStrip (s : String) : String := stripWith pyIsSpace s

/-- Python `str.strip(".")`: dots removed from both ends. -/
def pyStripDots (s : String) : String := stripWith (· = '.') s

/-- Python `str.lstrip(".")`. -/
def pyLstripDots (s : String) : String := ⟨s.data.dropWhile (· = '.')⟩

/-- Python `str.lower()` (ASCII model). -/
def pyLower (s : String) : String := ⟨s.data.map Char.toLower⟩

/-- Python `str.upper()` (ASCII model). -/
def pyUpper (s : String) : String := ⟨s.data.map Char.toUpper⟩

/-- Python `str.startswith` (list-based so that the kernel can reduce it). -/
def pyStartsWith (s t : String) : Bool := t.data.isPrefixOf s.data

/-- Python `str.endswith`. -/
def pyEndsWith (s t : String) : Bool := t.data.isSuffixOf s.data

/-- Python `in` for a single-character needle. -/
def pyContainsChar (s : String) (c : Char) : Bool := s.data.contains c

/-- Python `str.split(sep)` for a one-character separator: splits at every
occurrence, keeping empty pieces. -/
def splitChar (sep : Char) : List Char → List (List Char)
  | [] => [[]]
  | c :: rest =>
    match splitChar sep rest with
    | [] => [[]]
    | h :: t => if c = sep then [] :: h :: t else (c :: h) :: t

/-- Python `str.split(sep, 1)` for a one-character separator: `none` when the
separator does not occur, else the pieces before and after its first
occurrence. -/
def breakAtChar (sep : Char) : List Char → Option (List Char × List Char)
  | [] => none
  | c :: rest =>
    if c = sep then some ([], rest)
    else (breakAtChar sep rest).map fun p => (c :: p.1, p.2)

/-- Python `str.rsplit(sep, 1)` for a one-character separator: pieces before
and after the last occurrence. -/
def rbreakAtChar (sep : Char) (l : List Char) : Option (List Char × List Char) :=
  (breakAtChar sep l.reverse).map fun p => (p.2.reverse, p.1.reverse)

/-- Digit tail of Python's `int()`: decimal digits with single underscores
allowed between digits. -/
def pyDigitsTail (acc : Nat) : List Char → Option Nat
  | [] => some acc
  | '_' :: d :: rest =>
    if d.isDigit then pyDigitsTail (acc * 10 + (d.toNat - 48)) rest else none
  | '_' :: [] => none
  | d :: rest =>
    if d.isDigit then pyDigitsTail (acc * 10 + (d.toNat - 48)) rest else none

/-- Unsigned decimal literal of Python's `int()`: at least one digit, then
`pyDigitsTail`. -/
def pyDigits : List Char → Option Nat
  | [] => none
  | d :: rest => if d.isDigit then pyDigitsTail (d.toNat - 48) rest else none

/-- Python `int(s)`: surrounding whitespace, optional sign, decimal digits
with underscores. Returns `none` where Python raises `ValueError`. -/
def pyInt (s : String) : Option Int :=
  match (pyStrip s).data with
  | '+' :: rest => (pyDigits rest).map Int.ofNat
  | '-' :: rest => (pyDigits rest).map fun n => -(n : Int)
  | rest => (pyDigits rest).map Int.ofNat

/-! ## Fixed-size body slicing (handlers.`_send_body_with_policy`.`send_fixed`
and tunnel.`relay_client_to_upstream_segmented`)

Mirrors the Python loop `for i in range(0, len(body), size): body[i:i+size]`.
All call sites in the source guard `size > 0` (a zero step is a Python
`ValueError`); at `size = 0` this function returns `[]`. -/
def fixedSlicesGo (size : Nat) : Nat → List Nat → List (List Nat)
  | 0, _ => []
  | _, [] => []
  | fuel + 1, b :: rest =>
    (b :: rest).take size :: fixedSlicesGo size fuel ((b :: rest).drop size)

/-- Each iteration consumes `size ≥ 1` bytes, so fuel `body.length`
suffices. -/
def fixedSlices (body : List Nat) (size : Nat) : List (List Nat) :=
  match size with
  | 0 => []
  | n + 1 => fixedSlicesGo (n + 1) body.length body

/-! ## Shell-style glob matching (Python `fnmatch.fnmatch`, POSIX `normcase`)

`fnmatch` translates the pattern to a regular expression: `*` matches any
run of characters, `?` any single character, `[seq]` a character class
(`[!seq]` negated, a `]` right after the opening is literal, `a-z` ranges,
an unterminated `[` is a literal `[`). -/

/-- Split a class body at the first `]`; `none` when the class is
unterminated. -/
def findClose : List Char → Option (List Char × List Char)
  | [] => none
  | ']' :: rest => some ([], rest)
  | c :: rest => (findClose rest).map fun p => (c :: p.1, p.2)

/-- Class body after the optional `!`: a `]` in first position is part of
the body. -/
def clsBody (l : List Char) : Option (List Char × List Char) :=
  match l with
  | ']' :: t => (findClose t).map fun p => (']' :: p.1, p.2)
  | _ => findClose l

/-- Parse `[...]` contents (input starts right after `[`): negation flag,
body, remainder of the pattern after the closing `]`. -/
def parseCls (l : List Char) : Option (Bool × List Char × List Char) :=
  match l with
  | '!' :: t => (clsBody t).map fun p => (true, p.1, p.2)
  | _ => (clsBody l).map fun p => (false, p.1, p.2)

/-- Items of a class body: `a-z` ranges and single characters. -/
def clsItems : List Char → List (Char × Char)
  | [] => []
  | a :: '-' :: b :: rest => (a, b) :: clsItems rest
  | a :: rest => (a, a) :: clsItems rest

/-- Character-class membership. -/
def inCls (c : Char) (items : List (Char × Char)) : Bool :=
  items.any fun p => p.1 ≤ c && c ≤ p.2

/-- Glob matching, pattern against string, with explicit fuel.  Every
recursive call shrinks `pattern.length + s.length`, so fuel
`pattern.length + s.length + 1` always suffices (`parseCls` returns a
suffix of its input). -/
def globMatchFuel : Nat → List Char → List Char → Bool
  | 0, _, _ => false
  | _ + 1, [], s => s.isEmpty
  | fuel + 1, '*' :: ps, s =>
    globMatchFuel fuel ps s ||
      (match s with
       | [] => false
       | _ :: s2 => globMatchFuel fuel ('*' :: ps) s2)
  | fuel + 1, '?' :: ps, s =>
    match s with
    | [] => false
    | _ :: s2 => globMatchFuel fuel ps s2
  | fuel + 1, '[' :: ps, s =>
    match parseCls ps with
    | none =>
      match s with
      | c :: s2 => c = '[' && globMatchFuel fuel ps s2
      | [] => false
    | some (neg, cont, rest) =>
      match s with
      | c :: s2 => xor (inCls c (clsItems cont)) neg && globMatchFuel fuel rest s2
      | [] => false
  | fuel + 1, p :: ps, s =>
    match s with
    | c :: s2 => p = c && globMatchFuel fuel ps s2
    | [] => false

/-- Python `fnmatch.fnmatch(name, pattern)` (POSIX: `normcase` is the
identity). -/
def fnmatch (name : String) (pat : String) : Bool :=
  globMatchFuel (pat.data.length + name.data.length + 1) pat.data name.data

/-! ## Segmentation engine (`segmentation.py`)

Faithful embedding of the data model and of `SegmentationEngine.decide`,
`_rule_matches`, `_rule_score`, `_action_preferred`, `_format_explain` and
the rule parser.  Actions are strings, as in the source (`Literal["direct",
"upstream", "block"]`).  The Python field `path_prefix` is called
`path_pre` here. -/

structure SegmentationPolicy where
  mode : String := "direct"
  strategy : String := "none"
  chunk_size : Int := 1024
  delay_ms : Int := 0
  min_chunk : Option Int := none
  max_chunk : Option Int := none
deriving DecidableEq, Repr

structure SegmentationRule where
  host_glob : String
  policy : SegmentationPolicy
  action : String := "direct"
  upstream : Option (String × Int) := none
  reason : Option String := none
  scheme : Option String := none
  method : Option String := none
  path_pre : Option String := none
deriving DecidableEq, Repr

structure RequestContext where
  method : String
  scheme : String
  host : String
  port : Int
  path : String := ""
deriving DecidableEq, Repr

structure SegmentationDecision where
  action : String
  policy : SegmentationPolicy
  upstream : Option (String × Int) := none
  matched_rule : Option SegmentationRule := none
  reason : Option String := none
  score : Int := 0
  explain : Option String := none
deriving DecidableEq, Repr

def _rule_matches (ctx : RequestContext) (rule : SegmentationRule) : Bool :=
  fnmatch ctx.host rule.host_glob &&
  (match rule.scheme with
   | none => true
   | some s => s = ctx.scheme) &&
  (match rule.method with
   | none => true
   | some m => m = pyUpper ctx.method) &&
  (match rule.path_pre with
   | none => true
   | some p => pyStartsWith ctx.path p)

def _rule_score (rule : SegmentationRule) : Int :=
  let host_glob := rule.host_glob
  let s1 : Int := if host_glob ≠ "" ∧ host_glob ≠ "*" then 1000 else 0
  let s2 : Int :=
    if ¬ pyContainsChar host_glob '*' ∧ ¬ pyContainsChar host_glob '?' then 500
    else if pyStartsWith host_glob "*." then 200 else 0
  let s3 : Int := if rule.scheme.isSome then 100 else 0
  let s4 : Int := if rule.method.isSome then 100 else 0
  let s5 : Int := match rule.path_pre with
    | none => 0
    | some p => (p.data.length : Int)
  s1 + s2 + s3 + s4 + s5

def _action_preferred (action other : String) : Bool :=
  action = "block" && other ≠ "block"

def _format_explain (ctx : RequestContext) (rule : SegmentationRule) (score : Int) : String :=
  let parts := ["host_glob=" ++ rule.host_glob] ++
    (match rule.scheme with | none => [] | some s => ["scheme=" ++ s]) ++
    (match rule.method with | none => [] | some m => ["method=" ++ m]) ++
    (match rule.path_pre with | none => [] | some p => ["path_prefix=" ++ p])
  let ctx_parts := ["host=" ++ ctx.host, "scheme=" ++ ctx.scheme,
    "method=" ++ pyUpper ctx.method, "path=" ++ ctx.path]
  "matched " ++ String.intercalate " " parts ++ "; ctx " ++
    String.intercalate " " ctx_parts ++ "; score=" ++ toString score ++
    "; action=" ++ rule.action

/-- The rule-selection loop of `SegmentationEngine.decide` (its `for` loop,
with accumulator `best_rule`, `best_score`). -/
def decideLoop (ctx : RequestContext) :
    List SegmentationRule → Option SegmentationRule → Int →
    Option SegmentationRule × Int
  | [], best, best_score => (best, best_score)
  | rule :: rest, best, best_score =>
    if ¬ _rule_matches ctx rule then decideLoop ctx rest best best_score
    else
      let score := _rule_score rule
      match best with
      | none => decideLoop ctx rest (some rule) score
      | some b =>
        if score > best_score then decideLoop ctx rest (some rule) score
        else if score = best_score ∧ _action_preferred rule.action b.action then
          decideLoop ctx rest (some rule) score
        else decideLoop ctx rest (some b) best_score

/-- `SegmentationEngine.decide`: the engine holds an ordered rule list and a
default policy. -/
def SegmentationEngine.decide (rules : List SegmentationRule) (dflt : SegmentationPolicy)
    (ctx : RequestContext) : SegmentationDecision :=
  match decideLoop ctx rules none (-1) with
  | (none, _) =>
    { action := "direct", policy := dflt, upstream := none, matched_rule := none,
      reason := none, score := -1,
      explain := some "no rule matched; using default policy" }
  | (some best_rule, best_score) =>
    { action := best_rule.action, policy := best_rule.policy,
      upstream := best_rule.upstream, matched_rule := some best_rule,
      reason := best_rule.reason, score := best_score,
      explain := some (_format_explain ctx best_rule best_score) }

/-! ### Rule text parser (`parse_segment_rule` and helpers) -/

def _parse_int (value : String) (label : String) : Except String Int :=
  match pyInt value with
  | some n => .ok n
  | none => .error ("invalid int for '" ++ label ++ "': '" ++ value ++ "'")

def _parse_action (value : String) : Except String String :=
  let action := pyLower (pyStrip value)
  if action = "direct" ∨ action = "upstream" ∨ action = "block" then .ok action
  else .error ("unknown action '" ++ value ++ "'")

def _parse_upstream (value : String) : Except String (String × Int) :=
  if ¬ pyContainsChar value ':' then .error "upstream must be host:port"
  else
    match rbreakAtChar ':' value.data with
    | none => .error "upstream must be host:port"
    | some (h, p) =>
      let host := pyStrip ⟨h⟩
      if host = "" then .error "upstream must include host"
      else
        match pyInt ⟨p⟩ with
        | some port => .ok (host, port)
        | none => .error ("invalid upstream port '" ++ (⟨p⟩ : String) ++ "'")

def _parse_scheme (value : String) : Except String String :=
  let scheme := pyLower (pyStrip value)
  if scheme = "http" ∨ scheme = "https" then .ok scheme
  else .error ("unknown scheme '" ++ value ++ "'")

def _parse_method (value : String) : Except String String :=
  let method := pyStrip value
  if method = "" then .error "method must be non-empty"
  else .ok (pyUpper method)

/-- `_parse_path_prefix`. -/
def _parse_path_pre (value : String) : Except String String :=
  let p := pyStrip value
  if p = "" then .error "path_prefix must be non-empty"
  else if pyStartsWith p "/" then .ok p
  else .ok ("/" ++ p)

def _validate_policy (strategy : String) (chunk_size : Int)
    (min_chunk max_chunk : Option Int) : Except String Unit :=
  if ¬ (strategy = "none" ∨ strategy = "fixed" ∨ strategy = "random") then
    .error ("unknown strategy '" ++ strategy ++ "'")
  else if strategy = "fixed" then
    if chunk_size ≤ 0 then .error "fixed strategy requires chunk > 0" else .ok ()
  else if strategy = "random" then
    match min_chunk, max_chunk with
    | none, _ => .error "random strategy requires both min and max"
    | _, none => .error "random strategy requires both min and max"
    | some mn, some mx =>
      if mn ≤ 0 ∨ mx ≤ 0 then .error "random strategy requires min/max > 0"
      else if mn > mx then .error "random strategy requires min <= max"
      else .ok ()
  else .ok ()

def _validate_delay (delay_ms : Int) : Except String Unit :=
  if delay_ms < 0 then .error "delay must be >= 0" else .ok ()

def _validate_action (action : String) (upstream : Option (String × Int)) :
    Except String Unit :=
  if action = "upstream" ∧ upstream = none then
    .error "upstream action requires upstream=HOST:PORT"
  else if action = "block" ∧ upstream ≠ none then
    .error "block action cannot include upstream"
  else .ok ()

/-- The mutable locals of `_parse_segment_rule_inner`'s token loop. -/
structure RuleAcc where
  strategy : String := "none"
  chunk_size : Int := 1024
  delay_ms : Int := 0
  min_chunk : Option Int := none
  max_chunk : Option Int := none
  action : String := "direct"
  upstream : Option (String × Int) := none
  reason : Option String := none
  scheme : Option String := none
  method : Option String := none
  path_pre : Option String := none
deriving DecidableEq, Repr

/-- One iteration of the `for p in parts[1:]` loop. -/
def applyToken (acc : RuleAcc) (p : String) : Except String RuleAcc :=
  if ¬ pyContainsChar p '=' then
    .error ("invalid rule token '" ++ p ++ "', expected key=value")
  else
    match breakAtChar '=' p.data with
    | none => .error ("invalid rule token '" ++ p ++ "', expected key=value")
    | some (kRaw, vRaw) =>
      let k := pyLower (pyStrip ⟨kRaw⟩)
      let v := pyStrip ⟨vRaw⟩
      if k = "strategy" then .ok { acc with strategy := pyLower v }
      else if k = "chunk" then
        (_parse_int v "chunk").map fun n => { acc with chunk_size := n }
      else if k = "min" ∨ k = "chunk_min" then
        (_parse_int v k).map fun n => { acc with min_chunk := some n }
      else if k = "max" ∨ k = "chunk_max" then
        (_parse_int v k).map fun n => { acc with max_chunk := some n }
      else if k = "delay" then
        (_parse_int v "delay").map fun n => { acc with delay_ms := n }
      else if k = "action" then
        (_parse_action v).map fun a => { acc with action := a }
      else if k = "upstream" then
        (_parse_upstream v).map fun u => { acc with upstream := some u }
      else if k = "reason" then .ok { acc with reason := some v }
      else if k = "scheme" then
        (_parse_scheme v).map fun s => { acc with scheme := some s }
      else if k = "method" then
        (_parse_method v).map fun m => { acc with method := some m }
      else if k = "path_prefix" then
        (_parse_path_pre v).map fun pp => { acc with path_pre := some pp }
      else .error ("unknown rule key '" ++ k ++ "'")

def _parse_segment_rule_inner (text : String) : Except String SegmentationRule :=
  if ¬ pyContainsChar text '=' then
    .error ("segment rule must contain '=' " ++
      "(example: '*.example.com=segment_upstream,chunk=512,delay=5')")
  else
    match breakAtChar '=' text.data with
    | none =>
      .error ("segment rule must contain '=' " ++
        "(example: '*.example.com=segment_upstream,chunk=512,delay=5')")
    | some (hRaw, rhsRaw) =>
      let host_glob := pyStrip ⟨hRaw⟩
      let rhs := pyStrip ⟨rhsRaw⟩
      let parts := ((splitChar ',' rhs.data).map fun l => pyStrip ⟨l⟩).filter (· ≠ "")
      match parts with
      | [] => .error "segment rule missing mode"
      | mode :: rest => do
        let acc ← rest.foldlM applyToken {}
        _validate_policy acc.strategy acc.chunk_size acc.min_chunk acc.max_chunk
        _validate_delay acc.delay_ms
        _validate_action acc.action acc.upstream
        return { host_glob := host_glob,
                 policy := { mode := mode, strategy := acc.strategy,
                             chunk_size := acc.chunk_size, delay_ms := acc.delay_ms,
                             min_chunk := acc.min_chunk, max_chunk := acc.max_chunk },
                 action := acc.action, upstream := acc.upstream,
                 reason := acc.reason, scheme := acc.scheme,
                 method := acc.method, path_pre := acc.path_pre }

/-- `parse_segment_rule(text, line_no=...)`: prefixes parse errors with the
line number when given. -/
def parse_segment_rule (text : String) (line_no : Option Int) :
    Except String SegmentationRule :=
  match _parse_segment_rule_inner text, line_no with
  | .ok r, _ => .ok r
  | .error e, none => .error e
  | .error e, some n => .error ("line " ++ toString n ++ ": " ++ e)

/-! ## Host access policy (`policy.py`)

`_resolves_to_private` performs system DNS lookups; it is passed in as an
oracle `resolves_to_private : String → Bool`. -/

structure PolicyDecision where
  allowed : Bool
  reason : String := ""
deriving DecidableEq, Repr

def _normalize_domain_rule (rule : String) : String :=
  pyLower (pyStrip rule)

/-- `_host_matches_rule`: note the host is lowercased and then stripped of
dots at *both* ends (Python `strip(".")`), the rule of surrounding
whitespace; a rule starting with `.` is a suffix rule (its leading dots are
removed). -/
def _host_matches_rule (host rule : String) : Bool :=
  let host := pyStripDots (pyLower host)
  let rule := pyStrip (pyLower rule)
  if rule = "" then false
  else if pyStartsWith rule "." then
    let suffix := pyLstripDots rule
    host = suffix || pyEndsWith host ("." ++ suffix)
  else host = rule

def check_host_policy (host : String) (allow_domains deny_domains : List String)
    (deny_private : Bool) (resolves_to_private : String → Bool) : PolicyDecision :=
  let host := pyStrip host
  if deny_private && resolves_to_private host then
    ⟨false, "Blocked private/loopback/reserved address"⟩
  else
    match deny_domains.find? (fun r => _host_matches_rule host (_normalize_domain_rule r)) with
    | some r => ⟨false, "Blocked by deny rule: " ++ r⟩
    | none =>
      if allow_domains ≠ [] then
        if allow_domains.any (fun r => _host_matches_rule host (_normalize_domain_rule r)) then
          ⟨true, ""⟩
        else ⟨false, "Not in allow list"⟩
      else ⟨true, ""⟩

/-! ## Absolute-form URL splitting (`http.py`)

`split_absolute_http_url` delegates to `urllib.parse.urlsplit`; the embedding
models the stdlib's behaviour for targets that begin with `http://`: the
netloc runs to the first `/`, `?` or `#`; the fragment is split off before
the query; the hostinfo is the part of the netloc after the last `@`;
a `[`-bracketed hostname ends at `]`, otherwise the hostname ends at the
first `:`, with the port after it; the hostname is lowercased; the port must
be an integer in `[0, 65535]`. -/

structure UrlParts where
  netloc : List Char
  path : List Char
  query : List Char
deriving DecidableEq, Repr

def spanNotMem (stops : List Char) (l : List Char) : List Char × List Char :=
  l.span fun c => ¬ stops.contains c

def urlsplitHttp (rest : List Char) : UrlParts :=
  let (netloc, r1) := spanNotMem ['/', '?', '#'] rest
  let beforeHash := match breakAtChar '#' r1 with
    | some (u, _) => u
    | none => r1
  match breakAtChar '?' beforeHash with
  | some (p, q) => ⟨netloc, p, q⟩
  | none => ⟨netloc, beforeHash, []⟩

/-- Part of the netloc after the last `@` (userinfo removal). -/
def afterLastAt (l : List Char) : List Char :=
  match rbreakAtChar '@' l with
  | some (_, after) => after
  | none => l

/-- CPython `SplitResult._hostinfo`: `(hostname, port-string-or-none)`. -/
def hostPortSplit (hostinfo : List Char) : List Char × Option (List Char) :=
  let (hostname, port) :=
    match breakAtChar '[' hostinfo with
    | some (_, bracketed) =>
      match breakAtChar ']' bracketed with
      | some (h, afterBr) =>
        (h, match breakAtChar ':' afterBr with
            | some (_, p) => p
            | none => [])
      | none => (bracketed, [])
    | none =>
      match breakAtChar ':' hostinfo with
      | some (h, p) => (h, p)
      | none => (hostinfo, [])
  (hostname, if port = [] then none else some port)

def split_absolute_http_url (target : String) :
    Except String (String × Int × String) :=
  if ¬ pyStartsWith target "http://" then
    .error "Only http:// absolute-form supported"
  else
    let u := urlsplitHttp (target.data.drop 7)
    let (hn, portStr) := hostPortSplit (afterLastAt u.netloc)
    if hn = [] then .error "Invalid URL"
    else do
      let portVal : Int ←
        match portStr with
        | none => pure 0
        | some ps =>
          match pyInt ⟨ps⟩ with
          | none =>
            .error ("Port could not be cast to integer value as '" ++
              (⟨ps⟩ : String) ++ "'")
          | some p =>
            if p < 0 ∨ p > 65535 then .error "Port out of range 0-65535"
            else pure p
      let port : Int := if portVal = 0 then 80 else portVal
      let host : String := pyLower ⟨hn⟩
      let path : List Char := if u.path = [] then ['/'] else u.path
      let path : List Char := if u.query ≠ [] then path ++ '?' :: u.query else path
      return (host, port, ⟨path⟩)

/-! ## Caching resolver (`resolver.py`, class `CachingResolver`)

The cache is an ordered association list modelling `OrderedDict`
(insertion-ordered; assignment to an existing key keeps its position;
`move_to_end` reinserts at the end; `popitem(last=False)` removes the
oldest).  The monotonic clock and the inner resolver's answer for the call
are explicit inputs; the `hit` flag models the `cache="hit"` DNS trace. -/

def MIN_TTL : Int := 5
def MAX_TTL : Int := 3600
def FIXED_SYSTEM_TTL : Int := 60

structure ResolveResult where
  addrs : List (Int × String)
  ttl_seconds : Int
deriving DecidableEq, Repr

abbrev CacheKey := String × Int
abbrev DnsCache := List (CacheKey × (Int × List (Int × String)))

def odGet (c : DnsCache) (k : CacheKey) : Option (Int × List (Int × String)) :=
  (c.find? fun e => e.1 = k).map (·.2)

def odDel (c : DnsCache) (k : CacheKey) : DnsCache :=
  c.filter fun e => e.1 ≠ k

def odMoveToEnd (c : DnsCache) (k : CacheKey) : DnsCache :=
  match odGet c k with
  | none => c
  | some v => (c.filter fun e => e.1 ≠ k) ++ [(k, v)]

def odSet (c : DnsCache) (k : CacheKey) (v : Int × List (Int × String)) : DnsCache :=
  if (odGet c k).isSome then c.map fun e => if e.1 = k then (k, v) else e
  else c ++ [(k, v)]

structure CacheStep where
  result : ResolveResult
  cache : DnsCache
  hit : Bool
deriving DecidableEq, Repr

/-- The miss path of `CachingResolver.resolve` after the inner call: clamp a
positive TTL to `[MIN_TTL, MAX_TTL]`, skip caching on a non-positive TTL,
evict the oldest entry when inserting a new key at capacity. -/
def cacheInsert (max_entries : Int) (cache : DnsCache) (key : CacheKey)
    (now : Int) (result : ResolveResult) : CacheStep :=
  let ttl_seconds := result.ttl_seconds
  let ttl_seconds := if ttl_seconds > 0 then max MIN_TTL (min ttl_seconds MAX_TTL)
    else ttl_seconds
  if ttl_seconds ≤ 0 then ⟨result, cache, false⟩
  else
    let expires_at := now + ttl_seconds
    let cache :=
      if odGet cache key = none ∧ (cache.length : Int) ≥ max_entries then
        cache.drop 1
      else cache
    ⟨result, odSet cache key (expires_at, result.addrs), false⟩

/-- One `CachingResolver.resolve` call.  `inner` is the inner resolver's
answer for this call (the code calls the inner resolver exactly on the miss
and expired paths). -/
def cachingResolve (max_entries : Int) (cache : DnsCache) (host : String)
    (port : Int) (now : Int) (inner : ResolveResult) : CacheStep :=
  if max_entries ≤ 0 then ⟨inner, cache, false⟩
  else
    let key : CacheKey := (pyLower host, port)
    match odGet cache key with
    | some (expires_at, addrs) =>
      if now < expires_at then
        ⟨⟨addrs, expires_at - now⟩, odMoveToEnd cache key, true⟩
      else cacheInsert max_entries (odDel cache key) key now inner
    | none => cacheInsert max_entries cache key now inner

structure ResolveCall where
  host : String
  port : Int
  now : Int
  inner : ResolveResult
deriving Repr

/-- Run a sequence of resolve calls from a given cache state. -/
def runCache (max_entries : Int) (cache : DnsCache) : List ResolveCall → DnsCache
  | [] => cache
  | c :: cs =>
    runCache max_entries (cachingResolve max_entries cache c.host c.port c.now c.inner).cache cs

/-! ## Chunked body reading (`main.py`: `read_chunked_body`, `read_request_body`)

The client socket is modelled as the list of bytes it will deliver before
EOF.  `read_chunked_body` buffers over-reads internally, so its result
depends only on that byte sequence: `read_until(delim)` consumes through the
first occurrence of the delimiter (or everything at EOF) and `read_exact(n)`
consumes `n` bytes (fewer at EOF).  The loop consumes at least one byte per
iteration, so fuel `stream.length + 1` always suffices. -/

def isSpaceByte (b : Nat) : Bool :=
  b = 32 || b = 9 || b = 10 || b = 13 || b = 11 || b = 12

/-- Python `bytes.strip()`. -/
def stripBytes (l : List Nat) : List Nat :=
  ((l.dropWhile isSpaceByte).reverse.dropWhile isSpaceByte).reverse

/-- Python `bytes.rstrip(b"\r\n")`. -/
def rstripCRLFBytes (l : List Nat) : List Nat :=
  (l.reverse.dropWhile fun b => b = 13 || b = 10).reverse

/-- `line.split(b";", 1)[0]`: the bytes before the first `;`. -/
def beforeByte (b : Nat) (l : List Nat) : List Nat :=
  l.takeWhile (· ≠ b)

def isHexDigitByte (b : Nat) : Bool :=
  (48 ≤ b && b ≤ 57) || (97 ≤ b && b ≤ 102) || (65 ≤ b && b ≤ 70)

def hexValByte (b : Nat) : Nat :=
  if b ≤ 57 then b - 48 else if b ≤ 70 then b - 55 else b - 87

def pyHexTail (acc : Nat) : List Nat → Option Nat
  | [] => some acc
  | 95 :: d :: rest =>
    if isHexDigitByte d then pyHexTail (acc * 16 + hexValByte d) rest else none
  | 95 :: [] => none
  | d :: rest =>
    if isHexDigitByte d then pyHexTail (acc * 16 + hexValByte d) rest else none

def pyHexDigits : List Nat → Option Nat
  | [] => none
  | d :: rest => if isHexDigitByte d then pyHexTail (hexValByte d) rest else none

/-- Hex digits with an optional `0x`/`0X` prefix (an underscore may follow
the prefix). -/
def pyHexBody (l : List Nat) : Option Nat :=
  match l with
  | 48 :: 120 :: rest =>
    (match rest with
     | 95 :: r2 => pyHexDigits r2
     | _ => pyHexDigits rest)
  | 48 :: 88 :: rest =>
    (match rest with
     | 95 :: r2 => pyHexDigits r2
     | _ => pyHexDigits rest)
  | _ => pyHexDigits l

/-- Python `int(token, 16)`: whitespace, optional sign, optional `0x`,
hex digits with underscores. -/
def pyIntHexBytes (l : List Nat) : Option Int :=
  let l := ((l.dropWhile isSpaceByte).reverse.dropWhile isSpaceByte).reverse
  match l with
  | 43 :: rest => (pyHexBody rest).map Int.ofNat
  | 45 :: rest => (pyHexBody rest).map fun n => -(n : Int)
  | rest => (pyHexBody rest).map Int.ofNat

/-- Split a byte stream at the first occurrence of `d`, the first component
containing the delimiter. -/
def splitAtSub (d : List Nat) : List Nat → Option (List Nat × List Nat)
  | [] => none
  | a :: rest =>
    if d.isPrefixOf (a :: rest) then some (d, (a :: rest).drop d.length)
    else (splitAtSub d rest).map fun p => (a :: p.1, p.2)

/-- `read_until(b"\r\n")`: consume through the first CRLF, or everything at
EOF. Returns `(consumed, remaining stream)`. -/
def readUntilCRLF (s : List Nat) : List Nat × List Nat :=
  match splitAtSub CRLF s with
  | some p => p
  | none => (s, [])

/-- Length of the Python slice `buf[:n]` of a buffer of length `len`
(negative `n` counts from the end). -/
def pySliceLen (n : Int) (len : Nat) : Nat :=
  if 0 ≤ n then min n.toNat len else len - min (-n).toNat len

/-- The trailer loop after the `0` chunk: lines through CRLF, accumulated,
until a blank line or EOF. -/
def readTrailersFuel : Nat → List Nat → List Nat
  | 0, _ => []
  | fuel + 1, s =>
    let p := readUntilCRLF s
    if p.1 = [] then []
    else if p.1 = CRLF then p.1
    else p.1 ++ readTrailersFuel fuel p.2

def readChunkedFuel : Nat → List Nat → Except String (List Nat)
  | 0, _ => .ok []
  | fuel + 1, s =>
    let p := readUntilCRLF s
    let line := p.1
    if line = [] then .ok []
    else
      let size_token := rstripCRLFBytes (stripBytes (beforeByte 59 line))
      match pyIntHexBytes size_token with
      | none => .error "Invalid chunk size"
      | some size =>
        if size = 0 then .ok (line ++ readTrailersFuel fuel p.2)
        else
          let cnt := pySliceLen (size + 2) p.2.length
          let data_plus_crlf := p.2.take cnt
          if (data_plus_crlf.length : Int) < size + 2 then .error "Incomplete chunk data"
          else (readChunkedFuel fuel (p.2.drop cnt)).map fun out =>
            line ++ data_plus_crlf ++ out

def read_chunked_body (stream : List Nat) : Except String (List Nat) :=
  readChunkedFuel (stream.length + 1) stream

/-- Headers mapping (lowercased names), `headers.get(k)`. -/
def hget (headers : List (String × String)) (k : String) : Option String :=
  (headers.find? fun e => e.1 = k).map (·.2)

/-- The Content-Length receive loop of `read_request_body`. -/
def recvLoop (stream : List Nat) (remaining : Int) (body : List Nat) : List Nat :=
  if remaining ≤ 0 then body
  else
    let chunk := stream.take (min 4096 remaining.toNat)
    if h : chunk = [] then body
    else recvLoop (stream.drop chunk.length) (remaining - chunk.length) (body ++ chunk)
termination_by stream.length
decreasing_by
  have hlen : 0 < chunk.length := List.length_pos.mpr h
  have hle : chunk.length ≤ stream.length := by
    simp only [chunk, List.length_take]
    omega
  simp only [chunk, List.length_drop, List.length_take] at hlen hle ⊢
  omega

def read_request_body (stream initial : List Nat)
    (headers : List (String × String)) : Except String (List Nat) :=
  let clPath : Except String (List Nat) :=
    match hget headers "content-length" with
    | none => .ok initial
    | some cl =>
      if cl = "" then .ok initial
      else
        match pyInt cl with
        | none => .error "Invalid Content-Length"
        | some total => .ok (recvLoop stream (total - initial.length) initial)
  match hget headers "transfer-encoding" with
  | none => clPath
  | some te0 =>
    if te0 = "" then clPath
    else
      let te := pyLower te0
      if te = "chunked" then
        if initial ≠ [] then .error "Chunked body with buffered bytes not supported yet"
        else read_chunked_body stream
      else if te ≠ "identity" then .error "Transfer-Encoding not supported"
      else clPath

/-! ## Plain DNS resolver (`resolver.py`, class `PlainDnsResolver`)

The network is mdelled by oracles: `txid` is the random 16-bit transaction
id drawn for the query, and `udpResp` / `tcpResp` are the outcomes of
`_query_udp` / `_query_tcp` (an I/O error message, or the received bytes).
Messages of low-level Python exceptions (socket errors, ASCII decode
errors) are abbreviated; the strings raised by the resolver itself are
verbatim. -/

def A_RECORD : Nat := 1
def AAAA_RECORD : Nat := 28

/-- `struct.unpack("!H", data[i:i+2])` (bounds checked by callers). -/
def get2 (data : List Nat) (i : Nat) : Nat :=
  data.getD i 0 * 256 + data.getD (i + 1) 0

/-- 32-bit big-endian field at offset `i`. -/
def get4 (data : List Nat) (i : Nat) : Nat :=
  ((data.getD i 0 * 256 + data.getD (i + 1) 0) * 256 + data.getD (i + 2) 0) * 256 +
    data.getD (i + 3) 0

def _ensure_txid (txid : Nat) (data : List Nat) : Except String Unit :=
  if data.length < 2 then .error "DNS response too short"
  else if get2 data 0 ≠ txid then .error "DNS response transaction ID mismatch"
  else .ok ()

/-- `bytes.decode("ascii")`; the failure is a `UnicodeDecodeError`, a
subclass of `ValueError`. -/
def asciiDecode (l : List Nat) : Except String String :=
  if l.all (· ≤ 127) then .ok ⟨l.map fun b => Char.ofNat b⟩
  else .error "ascii decode error"

/-- The `while` loop of `_read_name`: offset chasing with compression
pointers.  Each iteration either visits a fresh pointer target (at most
`2^14` of them) or advances the offset, so the fuel below always
suffices. -/
def readNameGo (data : List Nat) : Nat → Nat → Bool → Nat → List Nat → List String →
    Except String (String × Nat)
  | 0, _, _, _, _, _ => .error "DNS name out of range"
  | fuel + 1, next_offset, jumped, after_pointer, seen, labels =>
    if next_offset ≥ data.length then .error "DNS name out of range"
    else
      let length := data.getD next_offset 0
      if length &&& 0xC0 = 0xC0 then
        if next_offset + 1 ≥ data.length then .error "DNS name pointer truncated"
        else
          let pointer := ((length &&& 0x3F) <<< 8) ||| data.getD (next_offset + 1) 0
          if seen.contains pointer then .error "DNS name pointer loop"
          else
            let jumped2 := true
            let after2 := if ¬ jumped then next_offset + 2 else after_pointer
            readNameGo data fuel pointer jumped2 after2 (pointer :: seen) labels
      else if length = 0 then
        .ok (String.intercalate "." labels.reverse,
             if jumped then after_pointer else next_offset + 1)
      else
        let start := next_offset + 1
        if start + length > data.length then .error "DNS label out of range"
        else
          match asciiDecode ((data.drop start).take length) with
          | .error e => .error e
          | .ok lab => readNameGo data fuel (start + length) jumped after_pointer seen
              (lab :: labels)

def _read_name (data : List Nat) (offset : Nat) : Except String (String × Nat) :=
  readNameGo data ((data.length + 2) * 16385 + 2) offset false offset [] []

/-- `socket.inet_ntop(AF_INET, rdata)`. -/
def inet_ntop4 (rdata : List Nat) : String :=
  String.intercalate "." (rdata.map fun b => toString b)

def toHexStr (n : Nat) : String := ⟨Nat.toDigits 16 n⟩

/-- Length of the run of zero words starting at `i`. -/
def zeroRunAt (ws : List Nat) (i : Nat) : Nat :=
  ((ws.drop i).takeWhile (· = 0)).length

/-- `socket.inet_ntop(AF_INET6, rdata)` over the eight 16-bit words:
RFC 5952 text form — lowercase hex words, the leftmost longest run of at
least two zero words compressed to `::`.  (The platform's additional
IPv4-embedded special forms are not modelled; no claim inspects IPv6
text.) -/
def inet_ntop6 (ws : List Nat) : String :=
  let runs := (List.range ws.length).map fun i => (i, zeroRunAt ws i)
  let best := runs.foldl (fun acc p => if p.2 > acc.2 then p else acc) (0, 0)
  if best.2 < 2 then String.intercalate ":" (ws.map toHexStr)
  else
    String.intercalate ":" ((ws.take best.1).map toHexStr) ++ "::" ++
      String.intercalate ":" ((ws.drop (best.1 + best.2)).map toHexStr)

/-- The 16-bit words of a 16-byte AAAA rdata. -/
def words16 : List Nat → List Nat
  | a :: b :: rest => (a * 256 + b) :: words16 rest
  | _ => []

/-- The question-skipping loop of `_parse_response`. -/
def parseQuestions (data : List Nat) : Nat → Nat → Except String Nat
  | 0, offset => .ok offset
  | n + 1, offset =>
    match _read_name data offset with
    | .error e => .error e
    | .ok (_name, off2) =>
      if off2 + 4 > data.length then .error "DNS response truncated in question"
      else parseQuestions data n (off2 + 4)

/-- The answer loop of `_parse_response`: keep class-IN records of the
queried type, format rdata, track the minimum TTL. -/
def parseAnswers (data : List Nat) (qtype : Nat) :
    Nat → Nat → List String → Option Nat → Except String (List String × Option Nat)
  | 0, _, addrs, ttl_min => .ok (addrs.reverse, ttl_min)
  | n + 1, offset, addrs, ttl_min =>
    match _read_name data offset with
    | .error e => .error e
    | .ok (_name, off) =>
      if off + 10 > data.length then .error "DNS response truncated in answer"
      else
        let rtype := get2 data off
        let rclass := get2 data (off + 2)
        let ttl := get4 data (off + 4)
        let rdlength := get2 data (off + 8)
        let off2 := off + 10
        if off2 + rdlength > data.length then .error "DNS response truncated in rdata"
        else
          let rdata := (data.drop off2).take rdlength
          let off3 := off2 + rdlength
          if rclass ≠ 1 ∨ rtype ≠ qtype then parseAnswers data qtype n off3 addrs ttl_min
          else
            let upd := some (match ttl_min with
              | none => ttl
              | some t => min t ttl)
            if rtype = A_RECORD ∧ rdlength = 4 then
              parseAnswers data qtype n off3 (inet_ntop4 rdata :: addrs) upd
            else if rtype = AAAA_RECORD ∧ rdlength = 16 then
              parseAnswers data qtype n off3 (inet_ntop6 (words16 rdata) :: addrs) upd
            else parseAnswers data qtype n off3 addrs ttl_min

def _parse_response (data : List Nat) (qtype : Nat) :
    Except String (List String × Nat × Bool) :=
  if data.length < 12 then .error "DNS response too short"
  else
    let flags := get2 data 2
    let qdcount := get2 data 4
    let ancount := get2 data 6
    let truncated := flags &&& 0x0200 ≠ 0
    match parseQuestions data qdcount 12 with
    | .error e => .error e
    | .ok off =>
      match parseAnswers data qtype ancount off [] none with
      | .error e => .error e
      | .ok (addrs, ttl_min) => .ok (addrs, ttl_min.getD 0, truncated)

def _format_error (host : String) (port : Int) (server_ip : String) (dns_port : Int)
    (mode : String) (exc : String) (udp_exc : Option String) : String :=
  let details := match udp_exc with
    | none => exc
    | some u => u ++ "; " ++ exc
  "DNS resolve failed host=" ++ host ++ " port=" ++ toString port ++
    " server=" ++ server_ip ++ " dns_port=" ++ toString dns_port ++
    " transport=" ++ mode ++ " error=" ++ details

/-- The TCP branch body of `_resolve_type`: receive, check the transaction
id, parse. -/
def tcpAttempt (txid : Nat) (resp : Except String (List Nat)) (qtype : Nat) :
    Except String (List String × Nat) := do
  let data ← resp
  _ensure_txid txid data
  let (addrs, ttl_seconds, _truncated) ← _parse_response data qtype
  return (addrs, ttl_seconds)

/-- The UDP branch body: additionally rejects truncated responses. -/
def udpAttempt (txid : Nat) (resp : Except String (List Nat)) (qtype : Nat) :
    Except String (List String × Nat) := do
  let data ← resp
  _ensure_txid txid data
  let (addrs, ttl_seconds, truncated) ← _parse_response data qtype
  if truncated then Except.error "DNS response truncated"
  else return (addrs, ttl_seconds)

/-- `PlainDnsResolver._resolve_type`: returns
`(addrs, ttl, transport_used, fallback)`. -/
def _resolve_type (transport : String) (server_ip : String) (dns_port : Int)
    (txid : Nat) (udpResp tcpResp : Except String (List Nat)) (qtype : Nat)
    (host : String) (port : Int) :
    Except String (List String × Nat × String × Nat) :=
  if transport = "tcp" then
    match tcpAttempt txid tcpResp qtype with
    | .ok (a, t) => .ok (a, t, "tcp", 0)
    | .error e => .error (_format_error host port server_ip dns_port "tcp" e none)
  else
    match udpAttempt txid udpResp qtype with
    | .ok (a, t) => .ok (a, t, "udp", 0)
    | .error udpE =>
      match tcpAttempt txid tcpResp qtype with
      | .ok (a, t) => .ok (a, t, "tcp", 1)
      | .error tcpE =>
        .error (_format_error host port server_ip dns_port "udp->tcp" tcpE (some udpE))

/-! ## Upstream connection (`tunnel.py`, `open_upstream`)

`open_upstream` stores `addrs = resolver.resolve(host, port)` — a
`ResolveResult` dataclass — and then runs `for family, ip in addrs:`
(line 329).  A dataclass defines no iteration protocol, so on every
successful resolve this raises `TypeError: 'ResolveResult' object is not
iterable` before any socket is created; the connection loop is dead code.
(The only in-repo caller, `handlers.handle_connect_tunnel`, also omits the
required `resolver` argument.)  `resolve` is the resolver call's outcome;
`connect` is the would-be connection oracle, unused exactly as in the
source. -/

structure PySocket where
  family : Int
  ip : String
  timeout : Option Int
deriving DecidableEq, Repr

def open_upstream (connect_timeout idle_timeout : Int)
    (resolve : Except String ResolveResult)
    (connect : Int × String → Option String) : Except String PySocket :=
  match resolve with
  | .error e => .error e
  | .ok _addrs =>
    let _ := connect
    let _ := connect_timeout
    let _ := idle_timeout
    .error "TypeError: 'ResolveResult' object is not iterable"

/-- Modelled from the spec: `open_upstream` as §4.6 describes it (the code
in `src/src/segmentedproxy/tunnel.py` raises a `TypeError` instead, see
`open_upstream` above): iterate the resolved `(family, ip)` pairs in order,
return the first successfully connected socket with `idle_timeout` set;
propagate the last error; fail with `NoAddresses` on an empty list. -/
def openUpstreamSpec (connect_timeout idle_timeout : Int)
    (resolve : Except String ResolveResult)
    (connect : Int × String → Option String) : Except String PySocket :=
  match resolve with
  | .error e => .error e
  | .ok rr =>
    let rec go : List (Int × String) → Option String → Except String PySocket
      | [], none => .error "No addresses resolved for connection"
      | [], some e => .error e
      | a :: rest, last =>
        match connect a with
        | none => .ok ⟨a.1, a.2, some idle_timeout⟩
        | some e =>
          let _ := last
          go rest (some e)
    let _ := connect_timeout
    go rr.addrs none

/-! ## CONNECT tunnel relays (`tunnel.py`) and HTTP body sending
(`handlers.py`, `_send_body_with_policy`)

The client→upstream byte flow is modelled by `bufs`, the list of successive
non-empty `recv(4096)` results before EOF; the functions below return the
list of byte strings passed to `sendall` on the upstream socket (timeouts,
inter-chunk delays and the reverse-direction thread are not modelled).
`draws` is the stream of `random.randint(min_chunk, max_chunk)` results;
the code only draws after establishing `0 < min_chunk ≤ max_chunk`, under
which every draw is at least 1 and the fuel below suffices. -/

def relay_client_to_upstream_segmented (chunk_size : Int)
    (bufs : List (List Nat)) : List (List Nat) :=
  let cs := if chunk_size ≤ 0 then 1024 else chunk_size
  (bufs.map fun data => fixedSlices data cs.toNat).flatten

/-- The inner `while idx < data_len` slicing loop of the random relay,
threading the draw counter. -/
def randomSlicesGo (draws : Nat → Nat) : Nat → Nat → List Nat → List (List Nat) × Nat
  | 0, k, _ => ([], k)
  | _, k, [] => ([], k)
  | fuel + 1, k, b :: rest =>
    let c := draws k
    let part := (b :: rest).take c
    let p := randomSlicesGo draws fuel (k + 1) ((b :: rest).drop c)
    (part :: p.1, p.2)

def relay_client_to_upstream_random_segmented (min_chunk max_chunk : Int)
    (draws : Nat → Nat) (bufs : List (List Nat)) : List (List Nat) :=
  if min_chunk ≤ 0 ∨ max_chunk ≤ 0 ∨ min_chunk > max_chunk then []
  else
    (bufs.foldl
      (fun acc data =>
        let p := randomSlicesGo draws (data.length + 1) acc.2 data
        (acc.1 ++ p.1, p.2))
      (([] : List (List Nat)), 0)).1

/-- `relay_tunnel`, restricted to the client→upstream writes it produces. -/
def relay_tunnel_c2u (policy : SegmentationPolicy) (draws : Nat → Nat)
    (bufs : List (List Nat)) : List (List Nat) :=
  if policy.mode = "direct" then bufs
  else if policy.mode ≠ "segment_upstream" then bufs
  else if policy.strategy = "none" then bufs
  else if policy.strategy = "fixed" then
    relay_client_to_upstream_segmented policy.chunk_size bufs
  else if policy.strategy = "random" then
    match policy.min_chunk, policy.max_chunk with
    | some mn, some mx => relay_client_to_upstream_random_segmented mn mx draws bufs
    | _, _ => relay_client_to_upstream_segmented policy.chunk_size bufs
  else relay_client_to_upstream_segmented policy.chunk_size bufs

/-- `handlers._send_body_with_policy`, as the list of byte strings written
to the upstream socket. -/
def _send_body_with_policy (policy : SegmentationPolicy) (draws : Nat → Nat)
    (body : List Nat) : List (List Nat) :=
  if body = [] then []
  else if policy.mode ≠ "segment_upstream" ∨ policy.strategy = "none" then [body]
  else
    let chunk_size := if policy.chunk_size > 0 then policy.chunk_size else 1024
    let send_fixed := fixedSlices body chunk_size.toNat
    if policy.strategy = "fixed" then send_fixed
    else if policy.strategy = "random" then
      match policy.min_chunk, policy.max_chunk with
      | some mn, some mx =>
        if mn ≤ 0 ∨ mx ≤ 0 ∨ mn > mx then send_fixed
        else (randomSlicesGo draws (body.length + 1) 0 body).1
      | _, _ => send_fixed
    else send_fixed

/-! ## Claim-side models for corrected claims -/

/-- The domain matcher exactly as claim C6 words it: case-insensitive,
"after trimming *trailing* dots from the host" (the source instead trims
dots at both ends, Python `strip(".")`). -/
def hostMatchesClaimC6 (host rule : String) : Bool :=
  let host : String := ⟨((pyLower host).data.reverse.dropWhile (· = '.')).reverse⟩
  let rule := pyStrip (pyLower rule)
  if rule = "" then false
  else if pyStartsWith rule "." then
    let suffix := pyLstripDots rule
    host = suffix || pyEndsWith host ("." ++ suffix)
  else host = rule

/-- `check_host_policy` as claim C6 describes it — identical evaluation
order, but with the claim's trailing-only dot trimming. -/
def checkHostPolicyClaimC6 (host : String) (allow_domains deny_domains : List String)
    (deny_private : Bool) (resolves_to_private : String → Bool) : PolicyDecision :=
  let host := pyStrip host
  if deny_private && resolves_to_private host then
    ⟨false, "Blocked private/loopback/reserved address"⟩
  else
    match deny_domains.find? (fun r => hostMatchesClaimC6 host r) with
    | some r => ⟨false, "Blocked by deny rule: " ++ r⟩
    | none =>
      if allow_domains ≠ [] then
        if allow_domains.any (fun r => hostMatchesClaimC6 host r) then ⟨true, ""⟩
        else ⟨false, "Not in allow list"⟩
      else ⟨true, ""⟩

/-- Optional `:port` part of an absolute-form target. -/
def optPort : Option String → String
  | none => ""
  | some ds => ":" ++ ds

/-- Optional `?query` part of an absolute-form target. -/
def optQuery : Option String → String
  | none => ""
  | some q => "?" ++ q

/-- Port value as claim C8 describes it: 80 when absent, `u.port or 80`
otherwise (so an explicit port 0 also maps to 80). -/
def portValSpec : Option String → Int
  | none => 80
  | some ds =>
    match pyInt ds with
    | some n => if n = 0 then 80 else n
    | none => 80

/-- Claim-side ranking key for C1: the loop replaces its champion `best`
by `rule` exactly when `score > best_score` or
`score = best_score and _action_preferred rule.action best.action`, which
is a strict comparison of `2 * score + blockBit`. -/
def ruleKey (r : SegmentationRule) : Int :=
  2 * _rule_score r + (if r.action = "block" then 1 else 0)

/-! # Theorems -/

/-! ## Fixed-size slicing lemmas -/

lemma fixedSlicesGo_congr (size : Nat) (hs : 0 < size) :
    ∀ (fuel1 fuel2 : Nat) (body : List Nat), body.length ≤ fuel1 → body.length ≤ fuel2 →
      fixedSlicesGo size fuel1 body = fixedSlicesGo size fuel2 body := by
  intro fuel1
  induction fuel1 with
  | zero =>
    intro fuel2 body h1 h2
    have hnil : body = [] := List.length_eq_zero.mp (Nat.le_zero.mp h1)
    subst hnil
    cases fuel2 <;> rfl
  | succ m ih =>
    intro fuel2 body h1 h2
    cases body with
    | nil => cases fuel2 <;> rfl
    | cons b rest =>
      cases fuel2 with
      | zero => simp at h2
      | succ m2 =>
        simp only [fixedSlicesGo]
        congr 1
        apply ih
        · simp only [List.length_drop, List.length_cons] at *
          omega
        · simp only [List.length_drop, List.length_cons] at *
          omega

lemma fixedSlices_nil (c : Nat) : fixedSlices [] c = [] := by
  cases c <;> rfl

lemma fixedSlices_cons (n : Nat) (b : Nat) (rest : List Nat) :
    fixedSlices (b :: rest) (n + 1) =
      (b :: rest).take (n + 1) :: fixedSlices ((b :: rest).drop (n + 1)) (n + 1) := by
  show fixedSlicesGo (n + 1) (b :: rest).length (b :: rest) = _
  have h2 : fixedSlices ((b :: rest).drop (n + 1)) (n + 1)
      = fixedSlicesGo (n + 1) ((b :: rest).drop (n + 1)).length ((b :: rest).drop (n + 1)) := rfl
  simp only [List.length_cons, fixedSlicesGo]
  rw [h2]
  refine congrArg _ ?_
  refine fixedSlicesGo_congr (n + 1) (Nat.succ_pos n) _ _ _ ?_ le_rfl
  simp only [List.length_drop, List.length_cons]
  omega

lemma fixedSlices_flatten_aux (c : Nat) (hc : 0 < c) :
    ∀ (len : Nat) (body : List Nat), body.length ≤ len →
      (fixedSlices body c).flatten = body := by
  intro len
  induction len with
  | zero =>
    intro body hb
    have hnil : body = [] := List.length_eq_zero.mp (Nat.le_zero.mp hb)
    subst hnil
    simp [fixedSlices_nil]
  | succ m ih =>
    intro body hb
    cases body with
    | nil => simp [fixedSlices_nil]
    | cons b rest =>
      obtain ⟨n, rfl⟩ : ∃ n, c = n + 1 := ⟨c - 1, by omega⟩
      have hlen : ((b :: rest).drop (n + 1)).length ≤ m := by
        simp only [List.length_drop, List.length_cons] at *
        omega
      rw [fixedSlices_cons, List.flatten_cons, ih _ hlen, List.take_append_drop]

lemma fixedSlices_flatten (body : List Nat) (c : Nat) (hc : 0 < c) :
    (fixedSlices body c).flatten = body :=
  fixedSlices_flatten_aux c hc body.length body le_rfl

lemma fixedSlices_get_aux (c : Nat) (hc : 0 < c) :
    ∀ (len : Nat) (body : List Nat), body.length ≤ len → ∀ i,
      (fixedSlices body c).get? i =
        if i * c < body.length then some ((body.drop (i * c)).take c) else none := by
  intro len
  induction len with
  | zero =>
    intro body hb i
    have hnil : body = [] := List.length_eq_zero.mp (Nat.le_zero.mp hb)
    subst hnil
    simp [fixedSlices_nil]
  | succ m ih =>
    intro body hb i
    cases body with
    | nil => simp [fixedSlices_nil]
    | cons b rest =>
      obtain ⟨n, rfl⟩ : ∃ n, c = n + 1 := ⟨c - 1, by omega⟩
      rw [fixedSlices_cons]
      match i with
      | 0 =>
        simp
      | i + 1 =>
        have hlen : ((b :: rest).drop (n + 1)).length ≤ m := by
          simp only [List.length_drop, List.length_cons] at *
          omega
        simp only [List.get?_cons_succ, ih _ hlen i, List.length_drop, List.drop_drop]
        have harith : (i + 1) * (n + 1) = (n + 1) + i * (n + 1) := by ring
        by_cases hcase : i * (n + 1) < (b :: rest).length - (n + 1)
        · rw [if_pos hcase, if_pos (by simp only [List.length_cons] at *; omega)]
          rw [harith]
        · rw [if_neg hcase, if_neg (by simp only [List.length_cons] at *; omega)]

lemma fixedSlices_get (body : List Nat) (c : Nat) (hc : 0 < c) (i : Nat) :
    (fixedSlices body c).get? i =
      if i * c < body.length then some ((body.drop (i * c)).take c) else none :=
  fixedSlices_get_aux c hc body.length body le_rfl i

lemma fixedSlices_mem_aux (c : Nat) (hc : 0 < c) :
    ∀ (len : Nat) (body : List Nat), body.length ≤ len →
      ∀ s ∈ fixedSlices body c, 0 < s.length ∧ s.length ≤ c := by
  intro len
  induction len with
  | zero =>
    intro body hb s hs
    have hnil : body = [] := List.length_eq_zero.mp (Nat.le_zero.mp hb)
    subst hnil
    simp [fixedSlices_nil] at hs
  | succ m ih =>
    intro body hb s hs
    cases body with
    | nil => simp [fixedSlices_nil] at hs
    | cons b rest =>
      obtain ⟨n, rfl⟩ : ∃ n, c = n + 1 := ⟨c - 1, by omega⟩
      rw [fixedSlices_cons, List.mem_cons] at hs
      rcases hs with hs | hs
      · subst hs
        refine ⟨by simp, ?_⟩
        simp
      · exact ih ((b :: rest).drop (n + 1))
          (by simp only [List.length_drop, List.length_cons] at *; omega) s hs

lemma fixedSlices_dropLast_aux (c : Nat) (hc : 0 < c) :
    ∀ (len : Nat) (body : List Nat), body.length ≤ len →
      ∀ s ∈ (fixedSlices body c).dropLast, s.length = c := by
  intro len
  induction len with
  | zero =>
    intro body hb s hs
    have hnil : body = [] := List.length_eq_zero.mp (Nat.le_zero.mp hb)
    subst hnil
    simp [fixedSlices_nil] at hs
  | succ m ih =>
    intro body hb s hs
    cases body with
    | nil => simp [fixedSlices_nil] at hs
    | cons b rest =>
      obtain ⟨n, rfl⟩ : ∃ n, c = n + 1 := ⟨c - 1, by omega⟩
      rw [fixedSlices_cons] at hs
      by_cases hrest : fixedSlices ((b :: rest).drop (n + 1)) (n + 1) = []
      · rw [hrest] at hs
        simp at hs
      · rw [List.dropLast_cons_of_ne_nil hrest, List.mem_cons] at hs
        rcases hs with hs | hs
        · subst hs
          have hne : (b :: rest).drop (n + 1) ≠ [] := by
            intro hnil
            exact hrest (by rw [hnil]; exact fixedSlices_nil _)
          have hlt : n + 1 < (b :: rest).length := by
            by_contra hcon
            exact hne (List.drop_eq_nil_of_le (by omega))
          simp only [List.length_take]
          omega
        · exact ih ((b :: rest).drop (n + 1))
            (by simp only [List.length_drop, List.length_cons] at *; omega) s hs

lemma fixedSlices_dropLast (body : List Nat) (c : Nat) (hc : 0 < c) :
    ∀ s ∈ (fixedSlices body c).dropLast, s.length = c :=
  fixedSlices_dropLast_aux c hc body.length body le_rfl

/-- C2: for every byte string `body` and every `chunk_size > 0` the fixed
slicer emits `body[0:c], body[c:2c], ...` in order — the `i`-th emitted
slice is `body[i*c : i*c+c]`, all slices but possibly the last have exactly
`c` bytes, no slice is empty or longer than `c`, and the concatenation of
the slices is `body`; in particular `_send_body_with_policy` with
`mode=segment_upstream, strategy=fixed, chunk_size=3` writes exactly
`[b"abc", b"def", b"gh"]` for body `b"abcdefgh"`. -/
theorem c2_fixed_slicing :
    (∀ (body : List Nat) (c : Nat), 0 < c →
      (fixedSlices body c).flatten = body ∧
      (∀ i, (fixedSlices body c).get? i =
        if i * c < body.length then some ((body.drop (i * c)).take c) else none) ∧
      (∀ s ∈ (fixedSlices body c).dropLast, s.length = c) ∧
      (∀ s ∈ fixedSlices body c, 0 < s.length ∧ s.length ≤ c)) ∧
    _send_body_with_policy
        { mode := "segment_upstream", strategy := "fixed", chunk_size := 3 }
        (fun _ => 0) (bytesOfString "abcdefgh") =
      [bytesOfString "abc", bytesOfString "def", bytesOfString "gh"] := by
  constructor
  · intro body c hc
    exact ⟨fixedSlices_flatten body c hc, fixedSlices_get body c hc,
      fixedSlices_dropLast body c hc,
      fixedSlices_mem_aux c hc body.length body le_rfl⟩
  · decide

/-- C2 witness: the general part instantiated at `b"abcdefgh"` with
`chunk_size = 3`. -/
theorem c2_fixed_slicing_witness :
    (fixedSlices (bytesOfString "abcdefgh") 3).flatten = bytesOfString "abcdefgh" ∧
    (∀ i, (fixedSlices (bytesOfString "abcdefgh") 3).get? i =
      if i * 3 < (bytesOfString "abcdefgh").length then
        some (((bytesOfString "abcdefgh").drop (i * 3)).take 3) else none) ∧
    (∀ s ∈ (fixedSlices (bytesOfString "abcdefgh") 3).dropLast, s.length = 3) ∧
    (∀ s ∈ fixedSlices (bytesOfString "abcdefgh") 3, 0 < s.length ∧ s.length ≤ 3) :=
  c2_fixed_slicing.1 (bytesOfString "abcdefgh") 3 (by decide)

/-! ## DNS cache lemmas -/

lemma odGet_none_iff {c : DnsCache} {k : CacheKey} :
    odGet c k = none ↔ c.find? (fun e => e.1 = k) = none := by
  unfold odGet
  cases c.find? (fun e => e.1 = k) <;> simp

lemma odSet_absent (c : DnsCache) (k : CacheKey) (v : Int × List (Int × String))
    (h : odGet c k = none) : odSet c k v = c ++ [(k, v)] := by
  simp [odSet, h]

lemma odGet_odSet_absent (c : DnsCache) (k : CacheKey) (v : Int × List (Int × String))
    (h : odGet c k = none) : odGet (odSet c k v) k = some v := by
  rw [odSet_absent c k v h]
  unfold odGet
  rw [List.find?_append, odGet_none_iff.mp h]
  simp

lemma odSet_length (c : DnsCache) (k : CacheKey) (v : Int × List (Int × String)) :
    (odSet c k v).length = if (odGet c k).isSome then c.length else c.length + 1 := by
  by_cases h : (odGet c k).isSome
  · simp [odSet, h]
  · simp [odSet, h]

lemma odGet_cons (e : CacheKey × (Int × List (Int × String))) (rest : DnsCache)
    (k : CacheKey) :
    odGet (e :: rest) k = if e.1 = k then some e.2 else odGet rest k := by
  by_cases h : e.1 = k
  · simp [odGet, h]
  · simp [odGet, h]

lemma filter_ne_length_lt (c : DnsCache) (k : CacheKey)
    (h : (odGet c k).isSome) :
    (c.filter fun e => e.1 ≠ k).length < c.length := by
  induction c with
  | nil => simp [odGet] at h
  | cons e rest ih =>
    rw [odGet_cons] at h
    by_cases he : e.1 = k
    · have hle : (rest.filter fun e => e.1 ≠ k).length ≤ rest.length :=
        List.length_filter_le _ _
      have hp : (decide (e.1 ≠ k)) = false := by simp [he]
      rw [List.filter_cons, hp]
      simp only [Bool.false_eq_true, if_false, List.length_cons]
      omega
    · have hp : (decide (e.1 ≠ k)) = true := by simp [he]
      rw [if_neg he] at h
      have hlt := ih h
      rw [List.filter_cons, hp]
      simp only [if_true, List.length_cons]
      omega

lemma odMoveToEnd_length_le (c : DnsCache) (k : CacheKey) :
    (odMoveToEnd c k).length ≤ c.length := by
  unfold odMoveToEnd
  cases hg : odGet c k with
  | none => exact le_rfl
  | some v =>
    have hlt := filter_ne_length_lt c k (by simp [hg])
    simp only [List.length_append, List.length_cons, List.length_nil]
    omega

lemma odDel_length_le (c : DnsCache) (k : CacheKey) :
    (odDel c k).length ≤ c.length :=
  List.length_filter_le _ _

lemma odGet_odDel (c : DnsCache) (k : CacheKey) : odGet (odDel c k) k = none := by
  rw [odGet_none_iff, List.find?_eq_none]
  intro x hx
  simp only [odDel, List.mem_filter] at hx
  simpa using hx.2

lemma odGet_drop_none (c : DnsCache) (k : CacheKey) (h : odGet c k = none) :
    odGet (c.drop 1) k = none := by
  rw [odGet_none_iff, List.find?_eq_none]
  rw [odGet_none_iff, List.find?_eq_none] at h
  intro x hx
  exact h x (List.mem_of_mem_drop hx)

lemma cacheInsert_result (N : Int) (c : DnsCache) (k : CacheKey) (now : Int)
    (r : ResolveResult) :
    (cacheInsert N c k now r).result = r ∧ (cacheInsert N c k now r).hit = false := by
  unfold cacheInsert
  set t := if r.ttl_seconds > 0 then max MIN_TTL (min r.ttl_seconds MAX_TTL)
    else r.ttl_seconds with ht
  by_cases h : t ≤ 0
  · rw [if_pos h]
    exact ⟨rfl, rfl⟩
  · rw [if_neg h]
    exact ⟨rfl, rfl⟩

lemma cacheInsert_length (N : Int) (c : DnsCache) (k : CacheKey) (now : Int)
    (r : ResolveResult) (h0 : 0 < N) (hc : (c.length : Int) ≤ N) :
    ((cacheInsert N c k now r).cache.length : Int) ≤ N := by
  unfold cacheInsert
  set t := if r.ttl_seconds > 0 then max MIN_TTL (min r.ttl_seconds MAX_TTL)
    else r.ttl_seconds with ht
  by_cases h : t ≤ 0
  · rw [if_pos h]
    exact hc
  · rw [if_neg h]
    simp only
    by_cases hcap : odGet c k = none ∧ (c.length : Int) ≥ N
    · rw [if_pos hcap]
      rw [odSet_length]
      have h1 : odGet (c.drop 1) k = none := odGet_drop_none c k hcap.1
      rw [h1]
      simp only [Option.isSome_none, Bool.false_eq_true, if_false, List.length_drop]
      push_cast
      omega
    · rw [if_neg hcap]
      rw [odSet_length]
      by_cases hp : (odGet c k).isSome
      · rw [if_pos hp]
        exact hc
      · rw [if_neg hp]
        have hnotge : ¬ ((c.length : Int) ≥ N) := by
          intro hge
          refine hcap ⟨?_, hge⟩
          cases hg : odGet c k with
          | none => rfl
          | some v =>
            rw [hg] at hp
            simp at hp
        push_cast
        omega

lemma cacheInsert_fresh (N : Int) (c : DnsCache) (k : CacheKey) (now : Int)
    (r : ResolveResult) (h : odGet c k = none) :
    ∀ e a, odGet (cacheInsert N c k now r).cache k = some (e, a) → now < e := by
  intro e a hsome
  unfold cacheInsert at hsome
  by_cases httl : (if r.ttl_seconds > 0 then max MIN_TTL (min r.ttl_seconds MAX_TTL)
      else r.ttl_seconds) ≤ 0
  · rw [if_pos httl] at hsome
    simp only at hsome
    rw [h] at hsome
    exact absurd hsome (by simp)
  · rw [if_neg httl] at hsome
    simp only at hsome
    set ttl2 := if r.ttl_seconds > 0 then max MIN_TTL (min r.ttl_seconds MAX_TTL)
      else r.ttl_seconds with httl2
    have habs : odGet (if odGet c k = none ∧ (c.length : Int) ≥ N then c.drop 1 else c) k
        = none := by
      split
      · exact odGet_drop_none c k h
      · exact h
    rw [odGet_odSet_absent _ _ _ habs] at hsome
    have h2 : ((now + ttl2, r.addrs) : Int × List (Int × String)) = (e, a) :=
      Option.some.inj hsome
    have he : now + ttl2 = e := congrArg Prod.fst h2
    omega

lemma cachingResolve_length (N : Int) (c : DnsCache) (host : String) (port : Int)
    (now : Int) (inner : ResolveResult) (h0 : 0 < N) (hc : (c.length : Int) ≤ N) :
    (((cachingResolve N c host port now inner).cache.length : Int)) ≤ N := by
  unfold cachingResolve
  rw [if_neg (by omega)]
  simp only
  cases hg : odGet c (pyLower host, port) with
  | none =>
    dsimp only
    exact cacheInsert_length N c _ now inner h0 hc
  | some v =>
    cases v with
    | mk expires_at addrs =>
      dsimp only
      by_cases hfresh : now < expires_at
      · rw [if_pos hfresh]
        simp only
        have := odMoveToEnd_length_le c (pyLower host, port)
        omega
      · rw [if_neg hfresh]
        exact cacheInsert_length N _ _ now inner h0
          (le_trans (by exact_mod_cast odDel_length_le c _) hc)

lemma runCache_length_aux (N : Int) (h0 : 0 < N) :
    ∀ (calls : List ResolveCall) (c : DnsCache), (c.length : Int) ≤ N →
      ((runCache N c calls).length : Int) ≤ N := by
  intro calls
  induction calls with
  | nil => intro c hc; exact hc
  | cons call rest ih =>
    intro c hc
    exact ih _ (cachingResolve_length N c call.host call.port call.now call.inner h0 hc)

/-- C5: (1) starting from an empty cache, after any sequence of resolve
calls a `CachingResolver` with `max_entries = N > 0` holds at most `N`
entries; (2) a lookup at `now ≥ expires_at` never hits — the inner result
is returned, the stale entry is dropped (any entry then present for the key
is fresh); (3) the cache key lowercases the host, so two hosts with the
same lowercasing behave identically. -/
theorem c5_caching_resolver :
    (∀ (N : Int), 0 < N → ∀ calls : List ResolveCall,
      ((runCache N [] calls).length : Int) ≤ N) ∧
    (∀ (N : Int) (cache : DnsCache) (host : String) (port now exp : Int)
       (addrs : List (Int × String)) (inner : ResolveResult), 0 < N →
      odGet cache (pyLower host, port) = some (exp, addrs) → exp ≤ now →
      (cachingResolve N cache host port now inner).hit = false ∧
      (cachingResolve N cache host port now inner).result = inner ∧
      (∀ e a, odGet (cachingResolve N cache host port now inner).cache
          (pyLower host, port) = some (e, a) → now < e)) ∧
    (∀ (N : Int) (cache : DnsCache) (h1 h2 : String) (port now : Int)
       (inner : ResolveResult), pyLower h1 = pyLower h2 →
      cachingResolve N cache h1 port now inner =
        cachingResolve N cache h2 port now inner) := by
  refine ⟨?_, ?_, ?_⟩
  · intro N h0 calls
    exact runCache_length_aux N h0 calls [] (by simp; omega)
  · intro N cache host port now exp addrs inner h0 hget hexp
    unfold cachingResolve
    rw [if_neg (by omega)]
    simp only
    rw [hget]
    dsimp only
    rw [if_neg (by omega)]
    refine ⟨(cacheInsert_result N _ _ now inner).2, (cacheInsert_result N _ _ now inner).1, ?_⟩
    exact cacheInsert_fresh N _ _ now inner (odGet_odDel cache _)
  · intro N cache h1 h2 port now inner hlow
    unfold cachingResolve
    rw [hlow]

/-- C5 witness: the three parts at concrete inputs — two calls stay within
`N = 1`; an expired entry misses and is dropped; `"A.com"` and `"a.com"`
resolve identically. -/
theorem c5_caching_resolver_witness :
    ((runCache 1 [] [⟨"a.com", 80, 0, ⟨[(2, "1.1.1.1")], 60⟩⟩,
        ⟨"b.com", 80, 1, ⟨[(2, "2.2.2.2")], 60⟩⟩]).length : Int) ≤ 1 ∧
    ((cachingResolve 2 [(("a.com", 80), (10, [(2, "1.1.1.1")]))] "a.com" 80 10
        ⟨[(2, "3.3.3.3")], 60⟩).hit = false ∧
     (cachingResolve 2 [(("a.com", 80), (10, [(2, "1.1.1.1")]))] "a.com" 80 10
        ⟨[(2, "3.3.3.3")], 60⟩).result = ⟨[(2, "3.3.3.3")], 60⟩ ∧
     (∀ e a, odGet (cachingResolve 2 [(("a.com", 80), (10, [(2, "1.1.1.1")]))] "a.com" 80 10
        ⟨[(2, "3.3.3.3")], 60⟩).cache (pyLower "a.com", 80) = some (e, a) → (10 : Int) < e)) ∧
    cachingResolve 2 [] "A.com" 80 0 ⟨[(2, "1.1.1.1")], 60⟩ =
      cachingResolve 2 [] "a.com" 80 0 ⟨[(2, "1.1.1.1")], 60⟩ := by
  refine ⟨c5_caching_resolver.1 1 (by decide) _,
    c5_caching_resolver.2.1 2 _ "a.com" 80 10 10 [(2, "1.1.1.1")] _ (by decide)
      (by decide) (by decide),
    c5_caching_resolver.2.2 2 [] "A.com" "a.com" 80 0 _ (by decide)⟩

/-! ## Host policy (C6) -/

lemma stripWith_cons_pos (p : Char → Bool) (c : Char) (l : List Char)
    (hc : p c = true) : stripWith p ⟨c :: l⟩ = stripWith p ⟨l⟩ := by
  unfold stripWith
  rw [List.dropWhile_cons, if_pos hc]

lemma stripWith_append_pos (p : Char → Bool) (l : List Char) (c : Char)
    (hc : p c = true) : stripWith p ⟨l ++ [c]⟩ = stripWith p ⟨l⟩ := by
  unfold stripWith
  rw [List.dropWhile_append]
  by_cases he : (l.dropWhile p).isEmpty
  · rw [if_pos he]
    rw [List.isEmpty_iff] at he
    rw [he]
    simp [List.dropWhile_cons, hc]
  · rw [if_neg he]
    rw [List.reverse_append]
    simp only [List.reverse_cons, List.reverse_nil, List.nil_append,
      List.singleton_append, List.dropWhile_cons, hc, if_pos]

lemma pyLower_dot_cons (h : String) : pyLower ("." ++ h) = ⟨'.' :: (pyLower h).data⟩ := by
  unfold pyLower
  apply String.ext
  simp

lemma pyLower_dot_append (h : String) :
    pyLower (h ++ ".") = ⟨(pyLower h).data ++ ['.']⟩ := by
  unfold pyLower
  apply String.ext
  simp

lemma pyStripDots_dot_left (x : String) :
    pyStripDots ("." ++ x) = pyStripDots x := by
  unfold pyStripDots
  have : ("." ++ x) = (⟨'.' :: x.data⟩ : String) := by
    apply String.ext
    simp
  rw [this]
  exact stripWith_cons_pos _ '.' x.data (by decide)

lemma host_matches_dot_left (h r : String) :
    _host_matches_rule ("." ++ h) r = _host_matches_rule h r := by
  unfold _host_matches_rule
  rw [pyLower_dot_cons]
  rw [show (⟨'.' :: (pyLower h).data⟩ : String) = "." ++ pyLower h from String.ext (by simp)]
  rw [pyStripDots_dot_left]

lemma host_matches_dot_right (h r : String) :
    _host_matches_rule (h ++ ".") r = _host_matches_rule h r := by
  unfold _host_matches_rule
  rw [pyLower_dot_append]
  unfold pyStripDots
  rw [stripWith_append_pos _ _ '.' (by decide)]

lemma host_matches_congr (h1 h2 r1 r2 : String) (hh : pyLower h1 = pyLower h2)
    (hr : pyLower r1 = pyLower r2) :
    _host_matches_rule h1 r1 = _host_matches_rule h2 r2 := by
  unfold _host_matches_rule
  rw [hh, hr]

/-- C6 counterexample: the claim says matching trims only *trailing* dots
from the host, under which host `".example.com"` would not match deny rule
`"example.com"` and the request would be allowed; the code trims leading
dots too (`strip(".")`) and denies. -/
theorem c6_policy_counterexample :
    check_host_policy ".example.com" [] ["example.com"] false (fun _ => false) =
      ⟨false, "Blocked by deny rule: example.com"⟩ ∧
    checkHostPolicyClaimC6 ".example.com" [] ["example.com"] false (fun _ => false) =
      ⟨true, ""⟩ ∧
    hostMatchesClaimC6 ".example.com" "example.com" = false := by
  refine ⟨?_, ?_, ?_⟩ <;> decide

/-- C6 (amended): `check_host_policy` evaluates, in order: the private-IP
guard (only when `deny_private`), each deny pattern in declared order with
reason `Blocked by deny rule: <pattern>`, then the allow list (non-empty:
allowed iff some allow pattern matches, else `Not in allow list`), else
allow.  Matching is case-insensitive, exact for plain patterns and
suffix-based for patterns starting with `.`, after trimming *leading and
trailing* dots from the host. -/
theorem c6_check_host_policy :
    (∀ (host : String) (allow deny : List String) (oracle : String → Bool),
      oracle (pyStrip host) = true →
      check_host_policy host allow deny true oracle =
        ⟨false, "Blocked private/loopback/reserved address"⟩) ∧
    (∀ (host : String) (allow : List String) (dp : Bool) (oracle : String → Bool)
       (pre post : List String) (r : String),
      (dp = true → oracle (pyStrip host) = false) →
      _host_matches_rule (pyStrip host) (_normalize_domain_rule r) = true →
      (∀ r2 ∈ pre, _host_matches_rule (pyStrip host) (_normalize_domain_rule r2) = false) →
      check_host_policy host allow (pre ++ r :: post) dp oracle =
        ⟨false, "Blocked by deny rule: " ++ r⟩) ∧
    (∀ (host : String) (allow deny : List String) (dp : Bool) (oracle : String → Bool),
      (dp = true → oracle (pyStrip host) = false) →
      (∀ r ∈ deny, _host_matches_rule (pyStrip host) (_normalize_domain_rule r) = false) →
      ((∃ r ∈ allow, _host_matches_rule (pyStrip host) (_normalize_domain_rule r) = true) →
        check_host_policy host allow deny dp oracle = ⟨true, ""⟩) ∧
      (allow ≠ [] →
        (∀ r ∈ allow, _host_matches_rule (pyStrip host) (_normalize_domain_rule r) = false) →
        check_host_policy host allow deny dp oracle = ⟨false, "Not in allow list"⟩) ∧
      (allow = [] → check_host_policy host allow deny dp oracle = ⟨true, ""⟩)) ∧
    (∀ h r, _host_matches_rule ("." ++ h) r = _host_matches_rule h r) ∧
    (∀ h r, _host_matches_rule (h ++ ".") r = _host_matches_rule h r) ∧
    (∀ h1 h2 r1 r2, pyLower h1 = pyLower h2 → pyLower r1 = pyLower r2 →
      _host_matches_rule h1 r1 = _host_matches_rule h2 r2) := by
  have hguard : ∀ (dp : Bool) (oracle : String → Bool) (h : String),
      (dp = true → oracle h = false) → (dp && oracle h) = false := by
    intro dp oracle h himp
    cases dp with
    | false => rfl
    | true => simp [himp rfl]
  refine ⟨?_, ?_, ?_, host_matches_dot_left, host_matches_dot_right, host_matches_congr⟩
  · intro host allow deny oracle h
    simp only [check_host_policy]
    rw [show (true && oracle (pyStrip host)) = true by simp [h], if_pos rfl]
  · intro host allow dp oracle pre post r hg hmatch hpre
    simp only [check_host_policy]
    rw [hguard dp oracle _ hg]
    simp only [Bool.false_eq_true, if_false]
    have hfind : (pre ++ r :: post).find?
        (fun r2 => _host_matches_rule (pyStrip host) (_normalize_domain_rule r2)) = some r := by
      rw [List.find?_append]
      have h1 : pre.find?
          (fun r2 => _host_matches_rule (pyStrip host) (_normalize_domain_rule r2)) = none := by
        rw [List.find?_eq_none]
        intro x hx
        simp [hpre x hx]
      rw [h1, @List.find?_cons_of_pos _
        (fun r2 => _host_matches_rule (pyStrip host) (_normalize_domain_rule r2)) r post hmatch]
      rfl
    rw [hfind]
  · intro host allow deny dp oracle hg hdeny
    have hfind : deny.find?
        (fun r2 => _host_matches_rule (pyStrip host) (_normalize_domain_rule r2)) = none := by
      rw [List.find?_eq_none]
      intro x hx
      simp [hdeny x hx]
    refine ⟨?_, ?_, ?_⟩
    · rintro ⟨r, hr, hrm⟩
      simp only [check_host_policy]
      rw [hguard dp oracle _ hg]
      simp only [Bool.false_eq_true, if_false]
      rw [hfind]
      have hne : allow ≠ [] := by
        intro hnil
        rw [hnil] at hr
        simp at hr
      rw [if_pos hne]
      have hany : allow.any
          (fun r2 => _host_matches_rule (pyStrip host) (_normalize_domain_rule r2)) = true :=
        List.any_eq_true.mpr ⟨r, hr, hrm⟩
      rw [if_pos hany]
    · intro hne hnone
      simp only [check_host_policy]
      rw [hguard dp oracle _ hg]
      simp only [Bool.false_eq_true, if_false]
      rw [hfind]
      rw [if_pos hne]
      have hany : allow.any
          (fun r2 => _host_matches_rule (pyStrip host) (_normalize_domain_rule r2)) = false := by
        rw [List.any_eq_false]
        intro x hx
        simp [hnone x hx]
      rw [hany]
      rfl
    · intro hnil
      simp only [check_host_policy]
      rw [hguard dp oracle _ hg]
      simp only [Bool.false_eq_true, if_false]
      rw [hfind]
      rw [if_neg (by simp [hnil])]

/-- C6 witness: the amended theorem applied at concrete inputs — private
guard, first-matching deny rule, allow hit, allow miss, empty allow list,
and both dot-trimming invariances. -/
theorem c6_check_host_policy_witness :
    check_host_policy "10.0.0.8" [] [] true (fun _ => true) =
      ⟨false, "Blocked private/loopback/reserved address"⟩ ∧
    check_host_policy "a.example.com" [] ["x.com", ".example.com"] false (fun _ => false) =
      ⟨false, "Blocked by deny rule: .example.com"⟩ ∧
    check_host_policy "good.com" ["good.com"] [] false (fun _ => false) = ⟨true, ""⟩ ∧
    check_host_policy "bad.com" ["good.com"] [] false (fun _ => false) =
      ⟨false, "Not in allow list"⟩ ∧
    check_host_policy "any.com" [] [] false (fun _ => false) = ⟨true, ""⟩ ∧
    _host_matches_rule (".example.com") "example.com" =
      _host_matches_rule "example.com" "example.com" ∧
    _host_matches_rule ("example.com.") "example.com" =
      _host_matches_rule "example.com" "example.com" := by
  refine ⟨c6_check_host_policy.1 "10.0.0.8" [] [] (fun _ => true) (by decide),
    c6_check_host_policy.2.1 "a.example.com" [] false (fun _ => false) ["x.com"] []
      ".example.com" (by intro h; rfl) (by decide) (by decide),
    (c6_check_host_policy.2.2.1 "good.com" ["good.com"] [] false (fun _ => false)
      (by intro h; rfl) (by decide)).1 ⟨"good.com", by decide, by decide⟩,
    ((c6_check_host_policy.2.2.1 "bad.com" ["good.com"] [] false (fun _ => false)
      (by intro h; rfl) (by decide)).2.1 (by decide) (by decide)),
    ((c6_check_host_policy.2.2.1 "any.com" [] [] false (fun _ => false)
      (by intro h; rfl) (by decide)).2.2 rfl),
    c6_check_host_policy.2.2.2.1 "example.com" "example.com",
    c6_check_host_policy.2.2.2.2.1 "example.com" "example.com"⟩

/-! ## Absolute-form URL splitting (C8) -/

lemma breakAtChar_of_not_mem (c : Char) (l : List Char) (h : c ∉ l) :
    breakAtChar c l = none := by
  induction l with
  | nil => rfl
  | cons a rest ih =>
    have h1 : ¬ (a = c) := fun hac => h (hac ▸ List.mem_cons_self a rest)
    have h2 : c ∉ rest := fun hm => h (List.mem_cons_of_mem a hm)
    simp [breakAtChar, h1, ih h2]

lemma breakAtChar_boundary (c : Char) (a b : List Char) (h : c ∉ a) :
    breakAtChar c (a ++ c :: b) = some (a, b) := by
  induction a with
  | nil => simp [breakAtChar]
  | cons x rest ih =>
    have h1 : ¬ (x = c) := fun hxc => h (hxc ▸ List.mem_cons_self x rest)
    have h2 : c ∉ rest := fun hm => h (List.mem_cons_of_mem x hm)
    simp [breakAtChar, h1, ih h2]

lemma afterLastAt_no_at (l : List Char) (h : '@' ∉ l) : afterLastAt l = l := by
  unfold afterLastAt rbreakAtChar
  rw [breakAtChar_of_not_mem '@' l.reverse (by simpa using h)]
  rfl

lemma takeWhile_eq_self_of_all {p : Char → Bool} (l : List Char)
    (h : ∀ x ∈ l, p x = true) : l.takeWhile p = l := by
  induction l with
  | nil => rfl
  | cons a l ih =>
    have ha : p a = true := h a (List.mem_cons_self a l)
    rw [List.takeWhile_cons, if_pos ha, ih (fun x hx => h x (List.mem_cons_of_mem a hx))]

lemma dropWhile_eq_nil_of_all {p : Char → Bool} (l : List Char)
    (h : ∀ x ∈ l, p x = true) : l.dropWhile p = [] := by
  induction l with
  | nil => rfl
  | cons a l ih =>
    have ha : p a = true := h a (List.mem_cons_self a l)
    rw [List.dropWhile_cons, if_pos ha, ih (fun x hx => h x (List.mem_cons_of_mem a hx))]

lemma char_contains_iff (l : List Char) (c : Char) : l.contains c = true ↔ c ∈ l := by
  rw [show l.contains c = List.elem c l from rfl]
  exact List.elem_iff

lemma spanNotMem_boundary (stops : List Char) (a b : List Char)
    (ha : ∀ x ∈ a, x ∉ stops)
    (hb : ∀ (x : Char) (t : List Char), b = x :: t → x ∈ stops) :
    spanNotMem stops (a ++ b) = (a, b) := by
  unfold spanNotMem
  rw [List.span_eq_take_drop]
  have hpa : ∀ x ∈ a, (fun c => decide ¬(stops.contains c = true)) x = true := by
    intro x hx
    simp only [decide_eq_true_eq]
    intro hc
    exact ha x hx ((char_contains_iff stops x).mp hc)
  cases b with
  | nil =>
    rw [List.append_nil]
    rw [takeWhile_eq_self_of_all a hpa, dropWhile_eq_nil_of_all a hpa]
  | cons x t =>
    have hmem : x ∈ stops := hb x t rfl
    have hcond : (decide ¬(stops.contains x = true)) = false := by
      simp only [decide_eq_false_iff_not, Decidable.not_not]
      exact (char_contains_iff stops x).mpr hmem
    rw [List.takeWhile_append_of_pos hpa, List.dropWhile_append_of_pos hpa]
    simp only [List.takeWhile_cons, List.dropWhile_cons]
    rw [hcond]
    simp

lemma string_ne_empty_data {s : String} (h : s ≠ "") : s.data ≠ [] := by
  intro hd
  exact h (String.ext hd)

lemma string_mk_data (s : String) : (⟨s.data⟩ : String) = s := by
  cases s
  rfl

lemma isPrefixOf_append_self (a b : List Char) : a.isPrefixOf (a ++ b) = true := by
  induction a with
  | nil => simp [List.isPrefixOf]
  | cons x rest ih => simp [List.isPrefixOf, ih]

lemma digit_ne_specials (c : Char) (hd : c.isDigit = true) :
    c ≠ '/' ∧ c ≠ '?' ∧ c ≠ '#' ∧ c ≠ '@' ∧ c ≠ '[' := by
  refine ⟨?_, ?_, ?_, ?_, ?_⟩ <;>
    (intro h; subst h; exact absurd hd (by decide))

lemma path_slash_shape (path : String) (hps : pyStartsWith path "/" = true) :
    ∃ pr, path.data = '/' :: pr := by
  unfold pyStartsWith at hps
  cases hpd : path.data with
  | nil =>
    rw [hpd] at hps
    simp [List.isPrefixOf] at hps
  | cons x t =>
    rw [hpd] at hps
    refine ⟨t, ?_⟩
    rw [show ("/" : String).data = ['/'] from rfl] at hps
    simp only [List.isPrefixOf, Bool.and_eq_true, beq_iff_eq] at hps
    rw [hps.1]

/-- The netloc of a well-formed target stops at the first `/`, `?` or `#`:
all host and `:port` characters pass through. -/
lemma netloc_safe (host : String) (portStr : Option String)
    (hhostc : ∀ c ∈ host.data, ¬(c = '@' ∨ c = ':' ∨ c = '/' ∨ c = '?' ∨ c = '#' ∨ c = '['))
    (hport : ∀ ds, portStr = some ds → (∀ c ∈ ds.data, c.isDigit = true)) :
    ∀ x ∈ host.data ++ (optPort portStr).data, x ∉ (['/', '?', '#'] : List Char) := by
  intro x hx
  rcases List.mem_append.mp hx with hx | hx
  · have hh := hhostc x hx
    push_neg at hh
    intro hmem
    simp only [List.mem_cons, List.not_mem_nil, or_false] at hmem
    rcases hmem with h | h | h
    · exact hh.2.2.1 h
    · exact hh.2.2.2.1 h
    · exact hh.2.2.2.2.1 h
  · cases hps : portStr with
    | none =>
      rw [hps] at hx
      simp [optPort] at hx
    | some ds =>
      rw [hps] at hx
      rw [show (optPort (some ds)).data = ':' :: ds.data by simp [optPort]] at hx
      rcases List.mem_cons.mp hx with hx | hx
      · subst hx
        decide
      · have hne := digit_ne_specials x (hport ds hps x hx)
        intro hmem
        simp only [List.mem_cons, List.not_mem_nil, or_false] at hmem
        rcases hmem with h | h | h
        · exact hne.1 h
        · exact hne.2.1 h
        · exact hne.2.2.1 h

/-- Netloc / path / query split of a well-formed target tail, no query. -/
lemma urlsplitHttp_spec_qnone (host path : String) (portStr : Option String)
    (hhostc : ∀ c ∈ host.data, ¬(c = '@' ∨ c = ':' ∨ c = '/' ∨ c = '?' ∨ c = '#' ∨ c = '['))
    (hpath0 : path = "" ∨ pyStartsWith path "/" = true)
    (hpathc : ∀ c ∈ path.data, ¬(c = '?' ∨ c = '#'))
    (hport : ∀ ds, portStr = some ds → (∀ c ∈ ds.data, c.isDigit = true)) :
    urlsplitHttp (host.data ++ (optPort portStr).data ++ path.data) =
      ⟨host.data ++ (optPort portStr).data, path.data, []⟩ := by
  have hhpc := netloc_safe host portStr hhostc hport
  unfold urlsplitHttp
  rcases hpath0 with hpe | hps
  · have hpd : path.data = [] := by
      simp [hpe]
    rw [hpd]
    rw [spanNotMem_boundary _ _ [] hhpc (by intro x t h; cases h)]
    rfl
  · obtain ⟨pr, hpr⟩ := path_slash_shape path hps
    rw [spanNotMem_boundary _ _ path.data hhpc
      (by
        intro x t h
        rw [hpr] at h
        injection h with h1 h2
        rw [← h1]
        simp)]
    dsimp only
    rw [breakAtChar_of_not_mem '#' path.data (fun hm => hpathc '#' hm (Or.inr rfl))]
    dsimp only
    rw [breakAtChar_of_not_mem '?' path.data (fun hm => hpathc '?' hm (Or.inl rfl))]

/-- Netloc / path / query split of a well-formed target tail, with a
query. -/
lemma urlsplitHttp_spec_qsome (host path q : String) (portStr : Option String)
    (hhostc : ∀ c ∈ host.data, ¬(c = '@' ∨ c = ':' ∨ c = '/' ∨ c = '?' ∨ c = '#' ∨ c = '['))
    (hpath0 : path = "" ∨ pyStartsWith path "/" = true)
    (hpathc : ∀ c ∈ path.data, ¬(c = '?' ∨ c = '#'))
    (hport : ∀ ds, portStr = some ds → (∀ c ∈ ds.data, c.isDigit = true))
    (hqc : ∀ c ∈ q.data, ¬ c = '#') :
    urlsplitHttp (host.data ++ (optPort portStr).data ++ path.data ++ '?' :: q.data) =
      ⟨host.data ++ (optPort portStr).data, path.data, q.data⟩ := by
  have hhpc := netloc_safe host portStr hhostc hport
  have hnohashq : '#' ∉ '?' :: q.data := by
    intro hmem
    rcases List.mem_cons.mp hmem with h | h
    · exact absurd h (by decide)
    · exact hqc '#' h rfl
  unfold urlsplitHttp
  rcases hpath0 with hpe | hps
  · have hpd : path.data = [] := by
      simp [hpe]
    rw [hpd, List.append_nil]
    rw [spanNotMem_boundary _ _ ('?' :: q.data) hhpc
      (by
        intro x t h
        injection h with h1 h2
        rw [← h1]
        simp)]
    dsimp only
    rw [breakAtChar_of_not_mem '#' ('?' :: q.data) hnohashq]
    dsimp only
    rw [show ('?' :: q.data : List Char) = [] ++ '?' :: q.data from rfl,
      breakAtChar_boundary '?' [] q.data (by simp)]
  · obtain ⟨pr, hpr⟩ := path_slash_shape path hps
    have hnohash : '#' ∉ path.data ++ '?' :: q.data := by
      intro hmem
      rcases List.mem_append.mp hmem with h | h
      · exact hpathc '#' h (Or.inr rfl)
      · exact hnohashq h
    rw [List.append_assoc]
    rw [spanNotMem_boundary _ _ (path.data ++ '?' :: q.data) hhpc
      (by
        intro x t h
        rw [hpr, List.cons_append] at h
        injection h with h1 h2
        rw [← h1]
        simp)]
    dsimp only
    rw [breakAtChar_of_not_mem '#' _ hnohash]
    dsimp only
    rw [breakAtChar_boundary '?' path.data q.data
      (fun hm => hpathc '?' hm (Or.inl rfl))]

lemma hostPortSplit_spec_none (host : String)
    (hhostc : ∀ c ∈ host.data, ¬(c = '@' ∨ c = ':' ∨ c = '/' ∨ c = '?' ∨ c = '#' ∨ c = '[')) :
    hostPortSplit (afterLastAt (host.data ++ (optPort none).data)) = (host.data, none) := by
  rw [show (optPort none).data = ([] : List Char) from rfl, List.append_nil]
  rw [afterLastAt_no_at _ (fun h => hhostc '@' h (Or.inl rfl))]
  unfold hostPortSplit
  rw [breakAtChar_of_not_mem '['  _
    (fun h => hhostc '[' h (Or.inr (Or.inr (Or.inr (Or.inr (Or.inr rfl))))))]
  rw [breakAtChar_of_not_mem ':' host.data (fun h => hhostc ':' h (Or.inr (Or.inl rfl)))]
  rfl

lemma hostPortSplit_spec_some (host ds : String)
    (hhostc : ∀ c ∈ host.data, ¬(c = '@' ∨ c = ':' ∨ c = '/' ∨ c = '?' ∨ c = '#' ∨ c = '['))
    (hne : ds ≠ "") (hdig : ∀ c ∈ ds.data, c.isDigit = true) :
    hostPortSplit (afterLastAt (host.data ++ (optPort (some ds)).data)) =
      (host.data, some ds.data) := by
  rw [show (optPort (some ds)).data = ':' :: ds.data by simp [optPort]]
  have hnoat : '@' ∉ host.data ++ ':' :: ds.data := by
    intro hmem
    rcases List.mem_append.mp hmem with h | h
    · exact hhostc '@' h (Or.inl rfl)
    · rcases List.mem_cons.mp h with h | h
      · exact absurd h (by decide)
      · exact absurd (hdig '@' h) (by decide)
  have hnobr : '[' ∉ host.data ++ ':' :: ds.data := by
    intro hmem
    rcases List.mem_append.mp hmem with h | h
    · exact hhostc '[' h (Or.inr (Or.inr (Or.inr (Or.inr (Or.inr rfl)))))
    · rcases List.mem_cons.mp h with h | h
      · exact absurd h (by decide)
      · exact absurd (hdig '[' h) (by decide)
  rw [afterLastAt_no_at _ hnoat]
  unfold hostPortSplit
  rw [breakAtChar_of_not_mem '[' _ hnobr]
  rw [breakAtChar_boundary ':' host.data ds.data
    (fun h => hhostc ':' h (Or.inr (Or.inl rfl)))]
  simp only
  rw [if_neg (by
    intro hnil
    exact string_ne_empty_data hne hnil)]

lemma path_assemble_none (path : String) :
    (⟨if path.data = [] then ['/'] else path.data⟩ : String) =
      (if path = "" then "/" else path) ++ optQuery none := by
  apply String.ext
  show (if path.data = [] then ['/'] else path.data) =
    ((if path = "" then "/" else path) ++ "").data
  rw [String.data_append, show ("" : String).data = ([] : List Char) from rfl,
    List.append_nil]
  by_cases hpe : path = ""
  · rw [if_pos (by simp [hpe]), if_pos hpe]
  · rw [if_neg (fun h => hpe (String.ext (by simp [h]))), if_neg hpe]

lemma path_assemble_some (path q : String) :
    (⟨(if path.data = [] then ['/'] else path.data) ++ '?' :: q.data⟩ : String) =
      (if path = "" then "/" else path) ++ optQuery (some q) := by
  apply String.ext
  show (if path.data = [] then ['/'] else path.data) ++ '?' :: q.data =
    ((if path = "" then "/" else path) ++ ("?" ++ q)).data
  rw [String.data_append]
  refine congrArg₂ _ ?_ ?_
  · by_cases hpe : path = ""
    · rw [if_pos (by simp [hpe]), if_pos hpe]
    · rw [if_neg (fun h => hpe (String.ext (by simp [h]))), if_neg hpe]
  · rfl

lemma optPort_none_data : (optPort none).data = ([] : List Char) := rfl

lemma optQuery_none_data : (optQuery none).data = ([] : List Char) := rfl

lemma optPort_some_data (ds : String) : (optPort (some ds)).data = ':' :: ds.data := by
  simp [optPort]

lemma optQuery_some_data (q : String) : (optQuery (some q)).data = '?' :: q.data := by
  simp [optQuery]

/-- C8 counterexample: the claim says the scheme comparison is
case-insensitive, so a target beginning `HTTP://` would be accepted; the
code compares `startswith("http://")` case-sensitively and rejects it with
`BadUrl`. -/
theorem c8_url_counterexample :
    split_absolute_http_url "HTTP://example.com/" =
      .error "Only http:// absolute-form supported" := by
  rfl

/-- C8 (amended): `split_absolute_http_url` accepts exactly the
absolute-form targets `http://host[:port]/path?query` with the scheme
compared *case-sensitively* (any target not starting with lowercase
`http://` — in particular one beginning `HTTP://` — fails with `BadUrl`);
the port defaults to 80 when absent (and an explicit `0` also maps to 80,
`u.port or 80`), the path defaults to `/` when empty, and a non-empty query
string is preserved by appending `?query` to the path. -/
theorem c8_split_absolute_http_url :
    (∀ target : String, pyStartsWith target "http://" = false →
      split_absolute_http_url target = .error "Only http:// absolute-form supported") ∧
    (∀ (host path : String) (portStr query : Option String),
      host ≠ "" →
      (∀ c ∈ host.data, ¬(c = '@' ∨ c = ':' ∨ c = '/' ∨ c = '?' ∨ c = '#' ∨ c = '[')) →
      (path = "" ∨ pyStartsWith path "/" = true) →
      (∀ c ∈ path.data, ¬(c = '?' ∨ c = '#')) →
      (∀ ds, portStr = some ds → ds ≠ "" ∧ (∀ c ∈ ds.data, c.isDigit = true) ∧
        (∃ n, pyInt ds = some n ∧ 0 ≤ n ∧ n ≤ 65535)) →
      (∀ q, query = some q → q ≠ "" ∧ (∀ c ∈ q.data, ¬ c = '#')) →
      split_absolute_http_url ("http://" ++ host ++ optPort portStr ++ path ++ optQuery query) =
        .ok (pyLower host, portValSpec portStr,
             (if path = "" then "/" else path) ++ optQuery query)) := by
  constructor
  · intro target h
    unfold split_absolute_http_url
    rw [h]
    rfl
  · intro host path portStr query hhost hhostc hpath0 hpathc hport hquery
    cases portStr with
    | none =>
      have h2 := hostPortSplit_spec_none host hhostc
      cases query with
      | none =>
        have h1 := urlsplitHttp_spec_qnone host path none hhostc hpath0 hpathc
          (by intro ds hds; cases hds)
        have hdata : ("http://" ++ host ++ optPort none ++ path ++ optQuery none).data =
            "http://".data ++ (host.data ++ ((optPort (none : Option String)).data ++
              (path.data ++ (optQuery (none : Option String)).data))) := by
          simp
        have hsw : pyStartsWith ("http://" ++ host ++ optPort none ++ path ++ optQuery none)
            "http://" = true := by
          unfold pyStartsWith
          rw [hdata]
          exact isPrefixOf_append_self _ _
        unfold split_absolute_http_url
        rw [hsw, if_neg (by simp)]
        rw [hdata, List.drop_left' (show ("http://".data).length = 7 from rfl)]
        rw [show host.data ++ ((optPort (none : Option String)).data ++
            (path.data ++ (optQuery (none : Option String)).data)) =
          host.data ++ (optPort (none : Option String)).data ++ path.data by
            simp [optPort_none_data, optQuery_none_data]]
        rw [h1]
        dsimp only
        rw [h2]
        dsimp only
        rw [if_neg (string_ne_empty_data hhost)]
        dsimp only [Bind.bind, Except.bind, Pure.pure, Except.pure]
        rw [string_mk_data]
        rw [if_neg (show ¬(([] : List Char) ≠ []) from fun h => h rfl)]
        rw [path_assemble_none]
        rfl
      | some q =>
        have h1 := urlsplitHttp_spec_qsome host path q none hhostc hpath0 hpathc
          (by intro ds hds; cases hds) (hquery q rfl).2
        have hdata : ("http://" ++ host ++ optPort none ++ path ++ optQuery (some q)).data =
            "http://".data ++ (host.data ++ ((optPort (none : Option String)).data ++
              (path.data ++ (optQuery (some q)).data))) := by
          simp
        have hsw : pyStartsWith
            ("http://" ++ host ++ optPort none ++ path ++ optQuery (some q)) "http://" = true := by
          unfold pyStartsWith
          rw [hdata]
          exact isPrefixOf_append_self _ _
        unfold split_absolute_http_url
        rw [hsw, if_neg (by simp)]
        rw [hdata, List.drop_left' (show ("http://".data).length = 7 from rfl)]
        rw [show host.data ++ ((optPort (none : Option String)).data ++
            (path.data ++ (optQuery (some q)).data)) =
          host.data ++ (optPort (none : Option String)).data ++ path.data ++ '?' :: q.data by
            simp [optPort_none_data, optQuery_some_data]]
        rw [h1]
        dsimp only
        rw [h2]
        dsimp only
        rw [if_neg (string_ne_empty_data hhost)]
        dsimp only [Bind.bind, Except.bind, Pure.pure, Except.pure]
        rw [string_mk_data]
        rw [if_pos (string_ne_empty_data (hquery q rfl).1)]
        rw [path_assemble_some]
        rfl
    | some ds =>
      obtain ⟨hne, hdig, n, hn, hn0, hn65⟩ := hport ds rfl
      have h2 := hostPortSplit_spec_some host ds hhostc hne hdig
      have hpv : portValSpec (some ds) = if n = 0 then 80 else n := by
        simp only [portValSpec]
        rw [hn]
      cases query with
      | none =>
        have h1 := urlsplitHttp_spec_qnone host path (some ds) hhostc hpath0 hpathc
          (by intro ds2 hds2; injection hds2 with hds2; rw [← hds2]; exact hdig)
        have hdata : ("http://" ++ host ++ optPort (some ds) ++ path ++ optQuery none).data =
            "http://".data ++ (host.data ++ ((optPort (some ds)).data ++
              (path.data ++ (optQuery (none : Option String)).data))) := by
          simp
        have hsw : pyStartsWith
            ("http://" ++ host ++ optPort (some ds) ++ path ++ optQuery none) "http://" = true := by
          unfold pyStartsWith
          rw [hdata]
          exact isPrefixOf_append_self _ _
        unfold split_absolute_http_url
        rw [hsw, if_neg (by simp)]
        rw [hdata, List.drop_left' (show ("http://".data).length = 7 from rfl)]
        rw [show host.data ++ ((optPort (some ds)).data ++
            (path.data ++ (optQuery (none : Option String)).data)) =
          host.data ++ (optPort (some ds)).data ++ path.data by
            simp [optPort_some_data, optQuery_none_data]]
        rw [h1]
        dsimp only
        rw [h2]
        dsimp only
        rw [if_neg (string_ne_empty_data hhost)]
        rw [string_mk_data, string_mk_data, hn]
        dsimp only
        rw [if_neg (show ¬(n < 0 ∨ n > 65535) from by omega)]
        dsimp only [Bind.bind, Except.bind, Pure.pure, Except.pure]
        rw [if_neg (show ¬(([] : List Char) ≠ []) from fun h => h rfl)]
        rw [path_assemble_none, hpv]
      | some q =>
        have h1 := urlsplitHttp_spec_qsome host path q (some ds) hhostc hpath0 hpathc
          (by intro ds2 hds2; injection hds2 with hds2; rw [← hds2]; exact hdig)
          (hquery q rfl).2
        have hdata : ("http://" ++ host ++ optPort (some ds) ++ path ++
            optQuery (some q)).data =
            "http://".data ++ (host.data ++ ((optPort (some ds)).data ++
              (path.data ++ (optQuery (some q)).data))) := by
          simp
        have hsw : pyStartsWith
            ("http://" ++ host ++ optPort (some ds) ++ path ++ optQuery (some q))
            "http://" = true := by
          unfold pyStartsWith
          rw [hdata]
          exact isPrefixOf_append_self _ _
        unfold split_absolute_http_url
        rw [hsw, if_neg (by simp)]
        rw [hdata, List.drop_left' (show ("http://".data).length = 7 from rfl)]
        rw [show host.data ++ ((optPort (some ds)).data ++
            (path.data ++ (optQuery (some q)).data)) =
          host.data ++ (optPort (some ds)).data ++ path.data ++ '?' :: q.data by
            simp [optPort_some_data, optQuery_some_data]]
        rw [h1]
        dsimp only
        rw [h2]
        dsimp only
        rw [if_neg (string_ne_empty_data hhost)]
        rw [string_mk_data, string_mk_data, hn]
        dsimp only
        rw [if_neg (show ¬(n < 0 ∨ n > 65535) from by omega)]
        dsimp only [Bind.bind, Except.bind, Pure.pure, Except.pure]
        rw [if_pos (string_ne_empty_data (hquery q rfl).1)]
        rw [path_assemble_some, hpv]

/-- C8 witness: the amended theorem applied at concrete targets — a
non-`http://` target is rejected; `http://example.com/test?q=1` and
`http://a.com:8080` split as claimed. -/
theorem c8_split_absolute_http_url_witness :
    split_absolute_http_url "ftp://x/" = .error "Only http:// absolute-form supported" ∧
    split_absolute_http_url "http://example.com/test?q=1" =
      .ok ("example.com", 80, "/test?q=1") ∧
    split_absolute_http_url "http://a.com:8080" = .ok ("a.com", 8080, "/") := by
  refine ⟨c8_split_absolute_http_url.1 "ftp://x/" (by rfl), ?_, ?_⟩
  · have h := c8_split_absolute_http_url.2 "example.com" "/test" none (some "q=1")
      (by decide) (by decide) (Or.inr (by decide)) (by decide)
      (by intro ds hds; cases hds)
      (by
        intro q hq
        injection hq with hq
        rw [← hq]
        exact ⟨by decide, by decide⟩)
    exact h
  · have h := c8_split_absolute_http_url.2 "a.com" "" (some "8080") none
      (by decide) (by decide) (Or.inl rfl) (by decide)
      (by
        intro ds hds
        injection hds with hds
        rw [← hds]
        exact ⟨by decide, by decide, 8080, by decide, by decide, by decide⟩)
      (by intro q hq; cases hq)
    exact h

/-! ## Engine decide lemmas (C1) -/

lemma action_preferred_iff (x y : String) :
    _action_preferred x y = true ↔ (x = "block" ∧ ¬ y = "block") := by
  simp [_action_preferred]

lemma ruleKey_lt_iff (a b : SegmentationRule) :
    ruleKey a < ruleKey b ↔
      (_rule_score a < _rule_score b ∨
        (_rule_score b = _rule_score a ∧
          _action_preferred b.action a.action = true)) := by
  unfold ruleKey
  rw [action_preferred_iff]
  by_cases hb : b.action = "block" <;> by_cases ha : a.action = "block" <;>
    simp [hb, ha] <;> omega

lemma decideLoop_cons_skip (ctx : RequestContext) (r : SegmentationRule)
    (rest : List SegmentationRule) (best : Option SegmentationRule) (bs : Int)
    (hm : _rule_matches ctx r = false) :
    decideLoop ctx (r :: rest) best bs = decideLoop ctx rest best bs := by
  simp [decideLoop, hm]

lemma decideLoop_cons_none (ctx : RequestContext) (r : SegmentationRule)
    (rest : List SegmentationRule) (bs : Int) (hm : _rule_matches ctx r = true) :
    decideLoop ctx (r :: rest) none bs =
      decideLoop ctx rest (some r) (_rule_score r) := by
  simp [decideLoop, hm]

lemma decideLoop_cons_beats (ctx : RequestContext) (r : SegmentationRule)
    (rest : List SegmentationRule) (b : SegmentationRule) (bs : Int)
    (hm : _rule_matches ctx r = true)
    (hbt : _rule_score r > bs ∨
      (_rule_score r = bs ∧ _action_preferred r.action b.action = true)) :
    decideLoop ctx (r :: rest) (some b) bs =
      decideLoop ctx rest (some r) (_rule_score r) := by
  have hcond : ¬¬(_rule_matches ctx r = true) := by simp [hm]
  simp only [decideLoop]
  rw [if_neg hcond]
  rcases hbt with hgt | ⟨heq, hpref⟩
  · rw [if_pos hgt]
  · rw [if_neg (show ¬ _rule_score r > bs by omega), if_pos ⟨heq, hpref⟩]

lemma decideLoop_cons_keep (ctx : RequestContext) (r : SegmentationRule)
    (rest : List SegmentationRule) (b : SegmentationRule) (bs : Int)
    (hm : _rule_matches ctx r = true) (h1 : ¬ _rule_score r > bs)
    (h2 : ¬ (_rule_score r = bs ∧ _action_preferred r.action b.action = true)) :
    decideLoop ctx (r :: rest) (some b) bs = decideLoop ctx rest (some b) bs := by
  have hcond : ¬¬(_rule_matches ctx r = true) := by simp [hm]
  simp only [decideLoop]
  rw [if_neg hcond, if_neg h1, if_neg h2]

lemma decideLoop_filter (ctx : RequestContext) :
    ∀ (l : List SegmentationRule) (best : Option SegmentationRule) (bs : Int),
      decideLoop ctx l best bs =
        decideLoop ctx (l.filter (_rule_matches ctx)) best bs := by
  intro l
  induction l with
  | nil => intro best bs; rfl
  | cons r rest ih =>
    intro best bs
    rw [List.filter_cons]
    by_cases hm : _rule_matches ctx r = true
    · rw [if_pos hm]
      cases best with
      | none =>
        rw [decideLoop_cons_none ctx r rest bs hm,
          decideLoop_cons_none ctx r (rest.filter (_rule_matches ctx)) bs hm]
        exact ih (some r) (_rule_score r)
      | some b =>
        by_cases hg : _rule_score r > bs
        · rw [decideLoop_cons_beats ctx r rest b bs hm (Or.inl hg),
            decideLoop_cons_beats ctx r (rest.filter (_rule_matches ctx)) b bs hm
              (Or.inl hg)]
          exact ih (some r) (_rule_score r)
        · by_cases hp : _rule_score r = bs ∧ _action_preferred r.action b.action = true
          · rw [decideLoop_cons_beats ctx r rest b bs hm (Or.inr hp),
              decideLoop_cons_beats ctx r (rest.filter (_rule_matches ctx)) b bs hm
                (Or.inr hp)]
            exact ih (some r) (_rule_score r)
          · rw [decideLoop_cons_keep ctx r rest b bs hm hg hp,
              decideLoop_cons_keep ctx r (rest.filter (_rule_matches ctx)) b bs hm hg hp]
            exact ih (some b) bs
    · have hm2 : _rule_matches ctx r = false := by
        cases h : _rule_matches ctx r
        · rfl
        · exact absurd h hm
      rw [if_neg hm, decideLoop_cons_skip ctx r rest best bs hm2]
      exact ih best bs

lemma decideLoop_append (ctx : RequestContext) :
    ∀ (l1 l2 : List SegmentationRule) (best : Option SegmentationRule) (bs : Int),
      decideLoop ctx (l1 ++ l2) best bs =
        decideLoop ctx l2 (decideLoop ctx l1 best bs).1 (decideLoop ctx l1 best bs).2 := by
  intro l1
  induction l1 with
  | nil => intro l2 best bs; rfl
  | cons r rest ih =>
    intro l2 best bs
    rw [List.cons_append]
    by_cases hm : _rule_matches ctx r = true
    · cases best with
      | none =>
        rw [decideLoop_cons_none ctx r (rest ++ l2) bs hm,
          decideLoop_cons_none ctx r rest bs hm]
        exact ih l2 (some r) (_rule_score r)
      | some b =>
        by_cases hg : _rule_score r > bs
        · rw [decideLoop_cons_beats ctx r (rest ++ l2) b bs hm (Or.inl hg),
            decideLoop_cons_beats ctx r rest b bs hm (Or.inl hg)]
          exact ih l2 (some r) (_rule_score r)
        · by_cases hp : _rule_score r = bs ∧ _action_preferred r.action b.action = true
          · rw [decideLoop_cons_beats ctx r (rest ++ l2) b bs hm (Or.inr hp),
              decideLoop_cons_beats ctx r rest b bs hm (Or.inr hp)]
            exact ih l2 (some r) (_rule_score r)
          · rw [decideLoop_cons_keep ctx r (rest ++ l2) b bs hm hg hp,
              decideLoop_cons_keep ctx r rest b bs hm hg hp]
            exact ih l2 (some b) bs
    · have hm2 : _rule_matches ctx r = false := by
        cases h : _rule_matches ctx r
        · rfl
        · exact absurd h hm
      rw [decideLoop_cons_skip ctx r (rest ++ l2) best bs hm2,
        decideLoop_cons_skip ctx r rest best bs hm2]
      exact ih l2 best bs

lemma decideLoop_pre (ctx : RequestContext) (K : Int) :
    ∀ (l : List SegmentationRule) (best : Option SegmentationRule) (bs : Int),
      (∀ r ∈ l, ruleKey r < K) →
      ((best = none ∧ bs = -1) ∨
        (∃ a, best = some a ∧ bs = _rule_score a ∧ ruleKey a < K)) →
      (decideLoop ctx l best bs = (none, -1)) ∨
        (∃ a, decideLoop ctx l best bs = (some a, _rule_score a) ∧ ruleKey a < K) := by
  intro l
  induction l with
  | nil =>
    intro best bs _ hst
    rcases hst with ⟨hb, hs⟩ | ⟨a, hb, hs, hk⟩
    · rw [hb, hs]; exact Or.inl rfl
    · rw [hb, hs]; exact Or.inr ⟨a, rfl, hk⟩
  | cons r rest ih =>
    intro best bs hlt hst
    by_cases hm : _rule_matches ctx r = true
    · have hrk : ruleKey r < K := hlt r (List.mem_cons_self r rest)
      have hrest : ∀ x ∈ rest, ruleKey x < K :=
        fun x hx => hlt x (List.mem_cons_of_mem r hx)
      rcases hst with ⟨hb, hs⟩ | ⟨a, hb, hs, hk⟩
      · rw [hb, hs, decideLoop_cons_none ctx r rest (-1) hm]
        exact ih (some r) (_rule_score r) hrest (Or.inr ⟨r, rfl, rfl, hrk⟩)
      · rw [hb, hs]
        by_cases hg : _rule_score r > _rule_score a
        · rw [decideLoop_cons_beats ctx r rest a (_rule_score a) hm (Or.inl hg)]
          exact ih (some r) (_rule_score r) hrest (Or.inr ⟨r, rfl, rfl, hrk⟩)
        · by_cases hp : _rule_score r = _rule_score a ∧
              _action_preferred r.action a.action = true
          · rw [decideLoop_cons_beats ctx r rest a (_rule_score a) hm (Or.inr hp)]
            exact ih (some r) (_rule_score r) hrest (Or.inr ⟨r, rfl, rfl, hrk⟩)
          · rw [decideLoop_cons_keep ctx r rest a (_rule_score a) hm hg hp]
            exact ih (some a) (_rule_score a) hrest (Or.inr ⟨a, rfl, rfl, hk⟩)
    · have hm2 : _rule_matches ctx r = false := by
        cases h : _rule_matches ctx r
        · rfl
        · exact absurd h hm
      rw [decideLoop_cons_skip ctx r rest best bs hm2]
      exact ih best bs (fun x hx => hlt x (List.mem_cons_of_mem r hx)) hst

lemma decideLoop_post (ctx : RequestContext) (b : SegmentationRule) :
    ∀ (l : List SegmentationRule),
      (∀ c ∈ l, ruleKey c ≤ ruleKey b) →
      decideLoop ctx l (some b) (_rule_score b) = (some b, _rule_score b) := by
  intro l
  induction l with
  | nil => intro _; rfl
  | cons c rest ih =>
    intro hle
    by_cases hm : _rule_matches ctx c = true
    · have hcb : ¬ ruleKey b < ruleKey c :=
        not_lt.mpr (hle c (List.mem_cons_self c rest))
      rw [ruleKey_lt_iff] at hcb
      push_neg at hcb
      have h1 : ¬ _rule_score c > _rule_score b := by
        have h2 := hcb.1
        omega
      rw [decideLoop_cons_keep ctx c rest b (_rule_score b) hm h1
        (fun h => hcb.2 h.1 h.2)]
      exact ih (fun x hx => hle x (List.mem_cons_of_mem c hx))
    · have hm2 : _rule_matches ctx c = false := by
        cases h : _rule_matches ctx c
        · rfl
        · exact absurd h hm
      rw [decideLoop_cons_skip ctx c rest (some b) (_rule_score b) hm2]
      exact ih (fun x hx => hle x (List.mem_cons_of_mem c hx))

lemma exists_first_max (key : SegmentationRule → Int) :
    ∀ (l : List SegmentationRule), l ≠ [] →
      ∃ pre b post, l = pre ++ b :: post ∧ (∀ a ∈ pre, key a < key b) ∧
        ∀ c ∈ post, key c ≤ key b := by
  intro l
  induction l with
  | nil => intro h; exact absurd rfl h
  | cons x rest ih =>
    intro _
    by_cases hre : rest = []
    · refine ⟨[], x, [], by rw [hre]; rfl, ?_, ?_⟩
      · intro a ha; exact absurd ha (List.not_mem_nil a)
      · intro c hc; exact absurd hc (List.not_mem_nil c)
    · obtain ⟨pre, b, post, hsplit, hpre, hpost⟩ := ih hre
      by_cases hxb : key x < key b
      · refine ⟨x :: pre, b, post, by rw [hsplit, List.cons_append], ?_, hpost⟩
        intro a ha
        rcases List.mem_cons.mp ha with h | h
        · rw [h]; exact hxb
        · exact hpre a h
      · refine ⟨[], x, rest, rfl, ?_, ?_⟩
        · intro a ha; exact absurd ha (List.not_mem_nil a)
        · intro c hc
          have hbx : key b ≤ key x := not_lt.mp hxb
          rw [hsplit] at hc
          rcases List.mem_append.mp hc with h | h
          · exact le_trans (le_of_lt (hpre c h)) hbx
          · rcases List.mem_cons.mp h with h | h
            · rw [h]; exact hbx
            · exact le_trans (hpost c h) hbx

/-- C1: `SegmentationEngine.decide` is a total function of the rule list and
the request context; with no matching rule it returns the configured
default policy with action `direct`, score `-1` and explain
"no rule matched; using default policy"; otherwise the winner is the first
matching rule of maximal `ruleKey` (highest `_rule_score`, a `block` action
beating a non-`block` action at equal score, earlier declaration winning
remaining ties), and such a first-maximal split of the matching rules
always exists. -/
theorem c1_engine_decide (rules : List SegmentationRule) (dflt : SegmentationPolicy)
    (ctx : RequestContext) :
    (rules.filter (_rule_matches ctx) = [] →
      SegmentationEngine.decide rules dflt ctx =
        { action := "direct", policy := dflt, upstream := none, matched_rule := none,
          reason := none, score := -1,
          explain := some "no rule matched; using default policy" }) ∧
    (∀ pre b post,
      rules.filter (_rule_matches ctx) = pre ++ b :: post →
      (∀ a ∈ pre, ruleKey a < ruleKey b) →
      (∀ c ∈ post, ruleKey c ≤ ruleKey b) →
      SegmentationEngine.decide rules dflt ctx =
        { action := b.action, policy := b.policy, upstream := b.upstream,
          matched_rule := some b, reason := b.reason, score := _rule_score b,
          explain := some (_format_explain ctx b (_rule_score b)) }) ∧
    (rules.filter (_rule_matches ctx) = [] ∨
      ∃ pre b post, rules.filter (_rule_matches ctx) = pre ++ b :: post ∧
        (∀ a ∈ pre, ruleKey a < ruleKey b) ∧ ∀ c ∈ post, ruleKey c ≤ ruleKey b) := by
  refine ⟨?_, ?_, ?_⟩
  · intro hnil
    unfold SegmentationEngine.decide
    rw [decideLoop_filter ctx rules none (-1), hnil]
    rfl
  · intro pre b post hsplit hpre hpost
    have hmb : _rule_matches ctx b = true := by
      have hbm : b ∈ rules.filter (_rule_matches ctx) := by
        rw [hsplit]
        exact List.mem_append_right pre (List.mem_cons_self b post)
      exact (List.mem_filter.mp hbm).2
    unfold SegmentationEngine.decide
    rw [decideLoop_filter ctx rules none (-1), hsplit,
      decideLoop_append ctx pre (b :: post) none (-1)]
    have hstate := decideLoop_pre ctx (ruleKey b) pre none (-1) hpre (Or.inl ⟨rfl, rfl⟩)
    rcases hstate with heq | ⟨a, heq, hak⟩
    · rw [heq]
      dsimp only
      rw [decideLoop_cons_none ctx b post (-1) hmb, decideLoop_post ctx b post hpost]
    · rw [heq]
      dsimp only
      have hbt := (ruleKey_lt_iff a b).mp hak
      have hbt2 : _rule_score b > _rule_score a ∨
          (_rule_score b = _rule_score a ∧ _action_preferred b.action a.action = true) :=
        hbt.imp (fun h => by omega) (fun h => h)
      rw [decideLoop_cons_beats ctx b post a (_rule_score a) hmb hbt2,
        decideLoop_post ctx b post hpost]
  · by_cases h : rules.filter (_rule_matches ctx) = []
    · exact Or.inl h
    · exact Or.inr (exists_first_max ruleKey (rules.filter (_rule_matches ctx)) h)

/-- C1 witness: the theorem applied at a two-rule engine where the second,
more specific `block` rule wins over the first catch-all rule, at a
concrete request context. -/
theorem c1_engine_decide_witness :
    SegmentationEngine.decide
        [{ host_glob := "*", policy := {}, action := "direct" },
         { host_glob := "*.example.com", policy := {}, action := "block" }]
        {}
        { method := "GET", scheme := "http", host := "a.example.com", port := 80, path := "/x" } =
      { action := "block", policy := {}, upstream := none,
        matched_rule := some { host_glob := "*.example.com", policy := {}, action := "block" },
        reason := none,
        score := _rule_score { host_glob := "*.example.com", policy := {}, action := "block" },
        explain := some (_format_explain
          { method := "GET", scheme := "http", host := "a.example.com", port := 80, path := "/x" }
          { host_glob := "*.example.com", policy := {}, action := "block" }
          (_rule_score { host_glob := "*.example.com", policy := {}, action := "block" })) } :=
  (c1_engine_decide
      [{ host_glob := "*", policy := {}, action := "direct" },
       { host_glob := "*.example.com", policy := {}, action := "block" }]
      {}
      { method := "GET", scheme := "http", host := "a.example.com", port := 80, path := "/x" }).2.1
    [{ host_glob := "*", policy := {}, action := "direct" }]
    { host_glob := "*.example.com", policy := {}, action := "block" } []
    (by decide) (by decide) (by decide)

/-! ## Parsed-rule safety lemmas (C10) -/

lemma exceptBind_ok {α β : Type} (x : Except String α) (f : α → Except String β)
    (b : β) (h : x >>= f = Except.ok b) : ∃ a, x = Except.ok a ∧ f a = Except.ok b := by
  cases x with
  | error e => exact absurd h (by simp [Bind.bind, Except.bind])
  | ok a =>
    refine ⟨a, rfl, ?_⟩
    simpa [Bind.bind, Except.bind] using h

lemma validate_action_ok (action : String) (upstream : Option (String × Int))
    (u : Unit) (h : _validate_action action upstream = Except.ok u) :
    (action = "upstream" → upstream ≠ none) ∧ (action = "block" → upstream = none) := by
  unfold _validate_action at h
  by_cases h1 : action = "upstream" ∧ upstream = none
  · rw [if_pos h1] at h
    cases h
  · rw [if_neg h1] at h
    by_cases h2 : action = "block" ∧ upstream ≠ none
    · rw [if_pos h2] at h
      cases h
    · rw [if_neg h2] at h
      constructor
      · intro ha hu
        exact h1 ⟨ha, hu⟩
      · intro ha
        by_cases hu : upstream = none
        · exact hu
        · exact absurd ⟨ha, hu⟩ h2

lemma parse_tail_ok (host_glob mode : String) (rest : List String)
    (r : SegmentationRule)
    (h : (do
        let acc ← rest.foldlM applyToken {}
        _validate_policy acc.strategy acc.chunk_size acc.min_chunk acc.max_chunk
        _validate_delay acc.delay_ms
        _validate_action acc.action acc.upstream
        return { host_glob := host_glob,
                 policy := { mode := mode, strategy := acc.strategy,
                             chunk_size := acc.chunk_size, delay_ms := acc.delay_ms,
                             min_chunk := acc.min_chunk, max_chunk := acc.max_chunk },
                 action := acc.action, upstream := acc.upstream,
                 reason := acc.reason, scheme := acc.scheme,
                 method := acc.method, path_pre := acc.path_pre } :
      Except String SegmentationRule) = Except.ok r) :
    (r.action = "upstream" → r.upstream ≠ none) ∧
      (r.action = "block" → r.upstream = none) := by
  obtain ⟨acc, hacc, h⟩ := exceptBind_ok _ _ _ h
  obtain ⟨u1, h1, h⟩ := exceptBind_ok _ _ _ h
  obtain ⟨u2, h2, h⟩ := exceptBind_ok _ _ _ h
  obtain ⟨u3, h3, h⟩ := exceptBind_ok _ _ _ h
  have h4 : (Except.ok
      { host_glob := host_glob,
        policy := { mode := mode, strategy := acc.strategy,
                    chunk_size := acc.chunk_size, delay_ms := acc.delay_ms,
                    min_chunk := acc.min_chunk, max_chunk := acc.max_chunk },
        action := acc.action, upstream := acc.upstream,
        reason := acc.reason, scheme := acc.scheme,
        method := acc.method, path_pre := acc.path_pre } :
      Except String SegmentationRule) = Except.ok r := h
  injection h4 with h5
  subst h5
  exact validate_action_ok acc.action acc.upstream u3 h3

lemma inner_ok_inv (text : String) (r : SegmentationRule)
    (h : _parse_segment_rule_inner text = Except.ok r) :
    (r.action = "upstream" → r.upstream ≠ none) ∧
      (r.action = "block" → r.upstream = none) := by
  simp only [_parse_segment_rule_inner] at h
  by_cases hc : pyContainsChar text '=' = true
  · rw [if_neg (show ¬¬(pyContainsChar text '=' = true) from fun hx => hx hc)] at h
    cases hbr : breakAtChar '=' text.data with
    | none =>
      rw [hbr] at h
      cases h
    | some pq =>
      obtain ⟨kRaw, vRaw⟩ := pq
      rw [hbr] at h
      dsimp only at h
      generalize ((splitChar ',' (pyStrip ⟨vRaw⟩).data).map fun l =>
        pyStrip ⟨l⟩).filter (· ≠ "") = parts at h
      cases parts with
      | nil => cases h
      | cons mode rest =>
        exact parse_tail_ok (pyStrip ⟨kRaw⟩) mode rest r h
  · rw [if_pos (show ¬(pyContainsChar text '=' = true) from hc)] at h
    cases h

lemma parse_ok_inv (text : String) (ln : Option Int) (r : SegmentationRule)
    (h : parse_segment_rule text ln = Except.ok r) :
    (r.action = "upstream" → r.upstream ≠ none) ∧
      (r.action = "block" → r.upstream = none) := by
  unfold parse_segment_rule at h
  cases hi : _parse_segment_rule_inner text with
  | ok r2 =>
    rw [hi] at h
    have h2 : (Except.ok r2 : Except String SegmentationRule) = Except.ok r := h
    injection h2 with h3
    subst h3
    exact inner_ok_inv text r2 hi
  | error e =>
    rw [hi] at h
    cases ln with
    | none => cases h
    | some n => cases h

lemma decideLoop_fst_mem (ctx : RequestContext) :
    ∀ (l : List SegmentationRule) (best : Option SegmentationRule) (bs : Int)
      (b : SegmentationRule),
      (decideLoop ctx l best bs).1 = some b → best = some b ∨ b ∈ l := by
  intro l
  induction l with
  | nil => intro best bs b h; exact Or.inl h
  | cons r rest ih =>
    intro best bs b h
    by_cases hm : _rule_matches ctx r = true
    · cases best with
      | none =>
        rw [decideLoop_cons_none ctx r rest bs hm] at h
        rcases ih (some r) (_rule_score r) b h with h2 | h2
        · injection h2 with h3
          subst h3
          exact Or.inr (List.mem_cons_self r rest)
        · exact Or.inr (List.mem_cons_of_mem r h2)
      | some a =>
        by_cases hg : _rule_score r > bs
        · rw [decideLoop_cons_beats ctx r rest a bs hm (Or.inl hg)] at h
          rcases ih (some r) (_rule_score r) b h with h2 | h2
          · injection h2 with h3
            subst h3
            exact Or.inr (List.mem_cons_self r rest)
          · exact Or.inr (List.mem_cons_of_mem r h2)
        · by_cases hp : _rule_score r = bs ∧ _action_preferred r.action a.action = true
          · rw [decideLoop_cons_beats ctx r rest a bs hm (Or.inr hp)] at h
            rcases ih (some r) (_rule_score r) b h with h2 | h2
            · injection h2 with h3
              subst h3
              exact Or.inr (List.mem_cons_self r rest)
            · exact Or.inr (List.mem_cons_of_mem r h2)
          · rw [decideLoop_cons_keep ctx r rest a bs hm hg hp] at h
            rcases ih (some a) bs b h with h2 | h2
            · exact Or.inl h2
            · exact Or.inr (List.mem_cons_of_mem r h2)
    · have hm2 : _rule_matches ctx r = false := by
        cases hx : _rule_matches ctx r
        · rfl
        · exact absurd hx hm
      rw [decideLoop_cons_skip ctx r rest best bs hm2] at h
      rcases ih best bs b h with h2 | h2
      · exact Or.inl h2
      · exact Or.inr (List.mem_cons_of_mem r h2)

lemma decide_shape (rules : List SegmentationRule) (dflt : SegmentationPolicy)
    (ctx : RequestContext) :
    ((SegmentationEngine.decide rules dflt ctx).action = "direct" ∧
      (SegmentationEngine.decide rules dflt ctx).upstream = none) ∨
    ∃ b ∈ rules, (SegmentationEngine.decide rules dflt ctx).action = b.action ∧
      (SegmentationEngine.decide rules dflt ctx).upstream = b.upstream := by
  unfold SegmentationEngine.decide
  cases hd : decideLoop ctx rules none (-1) with
  | mk fst snd =>
    cases fst with
    | none => exact Or.inl ⟨rfl, rfl⟩
    | some b =>
      have hb : b ∈ rules := by
        rcases decideLoop_fst_mem ctx rules none (-1) b (by rw [hd]) with hx | hx
        · cases hx
        · exact hx
      exact Or.inr ⟨b, hb, rfl, rfl⟩

/-- C10: a rule accepted by `parse_segment_rule` never has action
`upstream` without an upstream target, and never action `block` with one;
consequently, for an engine whose rules all satisfy this invariant,
`SegmentationEngine.decide` never returns a decision with
`action = "upstream"` and `upstream = none` (the handlers' 502
"Upstream proxy not configured" branch), nor `action = "block"` with a
non-`none` upstream. -/
theorem c10_parsed_rules_safe :
    (∀ (text : String) (ln : Option Int) (r : SegmentationRule),
      parse_segment_rule text ln = Except.ok r →
      (r.action = "upstream" → r.upstream ≠ none) ∧
        (r.action = "block" → r.upstream = none)) ∧
    (∀ (rules : List SegmentationRule) (dflt : SegmentationPolicy)
        (ctx : RequestContext),
      (∀ r ∈ rules, (r.action = "upstream" → r.upstream ≠ none) ∧
        (r.action = "block" → r.upstream = none)) →
      ¬ ((SegmentationEngine.decide rules dflt ctx).action = "upstream" ∧
          (SegmentationEngine.decide rules dflt ctx).upstream = none) ∧
      ¬ ((SegmentationEngine.decide rules dflt ctx).action = "block" ∧
          (SegmentationEngine.decide rules dflt ctx).upstream ≠ none)) := by
  constructor
  · exact parse_ok_inv
  · intro rules dflt ctx hrules
    rcases decide_shape rules dflt ctx with ⟨ha, _⟩ | ⟨b, hb, ha, hu⟩
    · constructor
      · rintro ⟨h1, -⟩
        rw [ha] at h1
        exact absurd h1 (by decide)
      · rintro ⟨h1, -⟩
        rw [ha] at h1
        exact absurd h1 (by decide)
    · constructor
      · rintro ⟨h1, h2⟩
        rw [ha] at h1
        rw [hu] at h2
        exact (hrules b hb).1 h1 h2
      · rintro ⟨h1, h2⟩
        rw [ha] at h1
        rw [hu] at h2
        exact h2 ((hrules b hb).2 h1)

/-- C10 witness: the theorem applied at a concrete parsed `upstream` rule
and at a one-rule engine built from it. -/
theorem c10_parsed_rules_safe_witness :
    ((({ host_glob := "*.example.com", policy := { mode := "segment_upstream" },
         action := "upstream", upstream := some ("proxy", 3128) } :
        SegmentationRule).action = "upstream" →
      ({ host_glob := "*.example.com", policy := { mode := "segment_upstream" },
         action := "upstream", upstream := some ("proxy", 3128) } :
        SegmentationRule).upstream ≠ none) ∧
     (({ host_glob := "*.example.com", policy := { mode := "segment_upstream" },
         action := "upstream", upstream := some ("proxy", 3128) } :
        SegmentationRule).action = "block" →
      ({ host_glob := "*.example.com", policy := { mode := "segment_upstream" },
         action := "upstream", upstream := some ("proxy", 3128) } :
        SegmentationRule).upstream = none)) ∧
    (¬ ((SegmentationEngine.decide
          [{ host_glob := "*.example.com", policy := { mode := "segment_upstream" },
             action := "upstream", upstream := some ("proxy", 3128) }] {}
          { method := "GET", scheme := "http", host := "x", port := 80,
            path := "" }).action = "upstream" ∧
        (SegmentationEngine.decide
          [{ host_glob := "*.example.com", policy := { mode := "segment_upstream" },
             action := "upstream", upstream := some ("proxy", 3128) }] {}
          { method := "GET", scheme := "http", host := "x", port := 80,
            path := "" }).upstream = none) ∧
     ¬ ((SegmentationEngine.decide
          [{ host_glob := "*.example.com", policy := { mode := "segment_upstream" },
             action := "upstream", upstream := some ("proxy", 3128) }] {}
          { method := "GET", scheme := "http", host := "x", port := 80,
            path := "" }).action = "block" ∧
        (SegmentationEngine.decide
          [{ host_glob := "*.example.com", policy := { mode := "segment_upstream" },
             action := "upstream", upstream := some ("proxy", 3128) }] {}
          { method := "GET", scheme := "http", host := "x", port := 80,
            path := "" }).upstream ≠ none)) :=
  ⟨c10_parsed_rules_safe.1
      "*.example.com=segment_upstream,action=upstream,upstream=proxy:3128" none
      { host_glob := "*.example.com", policy := { mode := "segment_upstream" },
        action := "upstream", upstream := some ("proxy", 3128) }
      (by rfl),
   c10_parsed_rules_safe.2
      [{ host_glob := "*.example.com", policy := { mode := "segment_upstream" },
         action := "upstream", upstream := some ("proxy", 3128) }] {}
      { method := "GET", scheme := "http", host := "x", port := 80, path := "" }
      (by decide)⟩

/-! ## Upstream connection (C3) -/

/-- C3 (code bug): whenever the resolver call succeeds, `open_upstream`
raises `TypeError: 'ResolveResult' object is not iterable` at its
`for family, ip in addrs:` loop — before any socket is created — so it
never returns a connected socket; on the same resolved address list the
behaviour the claim describes (`openUpstreamSpec`) connects and returns a
socket with `idle_timeout` set. -/
theorem c3_open_upstream_type_error :
    (∀ (ct it : Int) (rr : ResolveResult) (connect : Int × String → Option String),
      open_upstream ct it (Except.ok rr) connect =
        Except.error "TypeError: 'ResolveResult' object is not iterable") ∧
    (openUpstreamSpec 5 30 (Except.ok ⟨[(2, "93.184.216.34")], 60⟩) (fun _ => none) =
        Except.ok ⟨2, "93.184.216.34", some 30⟩ ∧
      open_upstream 5 30 (Except.ok ⟨[(2, "93.184.216.34")], 60⟩) (fun _ => none) =
        Except.error "TypeError: 'ResolveResult' object is not iterable") :=
  ⟨fun _ _ _ _ => rfl, rfl, rfl⟩

/-! ## Random relay lemmas (C4) -/

lemma randomSlicesGo_flatten (draws : Nat → Nat) (hd : ∀ k, 1 ≤ draws k) :
    ∀ (fuel k : Nat) (data : List Nat), data.length ≤ fuel →
      (randomSlicesGo draws fuel k data).1.flatten = data := by
  intro fuel
  induction fuel with
  | zero =>
    intro k data hlen
    have hnil : data = [] := List.eq_nil_of_length_eq_zero (Nat.le_zero.mp hlen)
    rw [hnil]
    rfl
  | succ n ih =>
    intro k data hlen
    cases data with
    | nil => rfl
    | cons b rest =>
      simp only [randomSlicesGo]
      rw [List.flatten_cons]
      have hlen2 : ((b :: rest).drop (draws k)).length ≤ n := by
        have h1 := hd k
        simp only [List.length_drop, List.length_cons] at *
        omega
      rw [ih (k + 1) ((b :: rest).drop (draws k)) hlen2]
      exact List.take_append_drop (draws k) (b :: rest)

lemma randomSlicesGo_sizes (draws : Nat → Nat) (mn mx : Nat) (h1 : 1 ≤ mn)
    (hd : ∀ k, mn ≤ draws k ∧ draws k ≤ mx) :
    ∀ (fuel k : Nat) (data l : List Nat),
      l ∈ (randomSlicesGo draws fuel k data).1 → 1 ≤ l.length ∧ l.length ≤ mx := by
  intro fuel
  induction fuel with
  | zero =>
    intro k data l hl
    cases data with
    | nil => exact absurd hl (List.not_mem_nil l)
    | cons b rest => exact absurd hl (List.not_mem_nil l)
  | succ n ih =>
    intro k data l hl
    cases data with
    | nil => exact absurd hl (List.not_mem_nil l)
    | cons b rest =>
      simp only [randomSlicesGo] at hl
      rw [List.mem_cons] at hl
      rcases hl with hl | hl
      · subst hl
        have ha := (hd k).1
        have hb := (hd k).2
        simp only [List.length_take, List.length_cons]
        omega
      · exact ih (k + 1) ((b :: rest).drop (draws k)) l hl

lemma randRelay_fold (draws : Nat → Nat) (mn mx : Nat) (h1 : 1 ≤ mn)
    (hd : ∀ k, mn ≤ draws k ∧ draws k ≤ mx) :
    ∀ (bufs : List (List Nat)) (acc : List (List Nat) × Nat),
      ((bufs.foldl
          (fun acc data =>
            let p := randomSlicesGo draws (data.length + 1) acc.2 data
            (acc.1 ++ p.1, p.2)) acc).1.flatten = acc.1.flatten ++ bufs.flatten) ∧
      (∀ l ∈ (bufs.foldl
          (fun acc data =>
            let p := randomSlicesGo draws (data.length + 1) acc.2 data
            (acc.1 ++ p.1, p.2)) acc).1,
        l ∈ acc.1 ∨ (1 ≤ l.length ∧ l.length ≤ mx)) := by
  intro bufs
  induction bufs with
  | nil =>
    intro acc
    constructor
    · simp
    · intro l hl
      exact Or.inl hl
  | cons d bufs ih =>
    intro acc
    have hA : (randomSlicesGo draws (d.length + 1) acc.2 d).1.flatten = d :=
      randomSlicesGo_flatten draws (fun k => le_trans h1 (hd k).1)
        (d.length + 1) acc.2 d (by omega)
    have hstep := ih (acc.1 ++ (randomSlicesGo draws (d.length + 1) acc.2 d).1,
      (randomSlicesGo draws (d.length + 1) acc.2 d).2)
    constructor
    · simp only [List.foldl_cons]
      rw [hstep.1, List.flatten_append, hA, List.flatten_cons, List.append_assoc]
    · intro l hl
      simp only [List.foldl_cons] at hl
      rcases hstep.2 l hl with hl2 | hl2
      · rcases List.mem_append.mp hl2 with hl3 | hl3
        · exact Or.inl hl3
        · exact Or.inr (randomSlicesGo_sizes draws mn mx h1 hd
            (d.length + 1) acc.2 d l hl3)
      · exact Or.inr hl2

lemma map_fixed_flatten (c : Nat) (hc : 0 < c) :
    ∀ (bufs : List (List Nat)),
      ((bufs.map fun d => fixedSlices d c).flatten).flatten = bufs.flatten := by
  intro bufs
  induction bufs with
  | nil => rfl
  | cons d bufs ih =>
    simp only [List.map_cons, List.flatten_cons]
    rw [List.flatten_append, fixedSlices_flatten d c hc, ih]

lemma fixed_relay_flatten (cs : Int) (bufs : List (List Nat)) :
    (relay_client_to_upstream_segmented cs bufs).flatten = bufs.flatten := by
  have hpos : 0 < ((if cs ≤ 0 then 1024 else cs) : Int).toNat := by
    by_cases h : cs ≤ 0
    · rw [if_pos h]; decide
    · rw [if_neg h]; omega
  unfold relay_client_to_upstream_segmented
  exact map_fixed_flatten _ hpos bufs

/-- C4 counterexample: in a CONNECT tunnel with `mode=segment_upstream`,
`strategy=random` and bounds present but inconsistent (`min=2 > max=1`),
the relay forwards nothing at all (`relay_client_to_upstream_random_segmented`
returns immediately), while the claimed fallback to fixed segmentation
would have forwarded the full client bytes. -/
theorem c4_random_counterexample :
    relay_tunnel_c2u
        { mode := "segment_upstream", strategy := "random", chunk_size := 1024,
          delay_ms := 0, min_chunk := some 2, max_chunk := some 1 }
        (fun _ => 1) [bytesOfString "abcdefgh"] = [] ∧
    (relay_client_to_upstream_segmented 1024 [bytesOfString "abcdefgh"]).flatten =
      bytesOfString "abcdefgh" := by
  exact ⟨rfl, by decide⟩

/-- C4 (amended): for a CONNECT tunnel with `mode=segment_upstream` and
`strategy=random`: when either bound is absent (`None`) the relay falls
back to fixed segmentation with `chunk_size` (which forwards the
client→upstream bytes in full); when both bounds are present and
consistent (`0 < min_chunk ≤ max_chunk`) and every draw lies in
`[min_chunk, max_chunk]`, the bytes are forwarded in full and every slice
is non-empty with size at most `max_chunk`; but when both bounds are
present and inconsistent the relay forwards NOTHING (no fixed fallback in
the tunnel path). -/
theorem c4_random_relay (policy : SegmentationPolicy) (draws : Nat → Nat)
    (bufs : List (List Nat))
    (hmode : policy.mode = "segment_upstream")
    (hstrat : policy.strategy = "random") :
    (policy.min_chunk = none ∨ policy.max_chunk = none →
      relay_tunnel_c2u policy draws bufs =
        relay_client_to_upstream_segmented policy.chunk_size bufs) ∧
    ((relay_client_to_upstream_segmented policy.chunk_size bufs).flatten =
      bufs.flatten) ∧
    (∀ mn mx, policy.min_chunk = some mn → policy.max_chunk = some mx →
      ((mn ≤ 0 ∨ mx ≤ 0 ∨ mn > mx) → relay_tunnel_c2u policy draws bufs = []) ∧
      ((0 < mn ∧ mn ≤ mx) → (∀ k, mn.toNat ≤ draws k ∧ draws k ≤ mx.toNat) →
        (relay_tunnel_c2u policy draws bufs).flatten = bufs.flatten ∧
        ∀ l ∈ relay_tunnel_c2u policy draws bufs,
          1 ≤ l.length ∧ l.length ≤ mx.toNat)) := by
  have hstep : relay_tunnel_c2u policy draws bufs =
      match policy.min_chunk, policy.max_chunk with
      | some mn, some mx => relay_client_to_upstream_random_segmented mn mx draws bufs
      | _, _ => relay_client_to_upstream_segmented policy.chunk_size bufs := by
    unfold relay_tunnel_c2u
    rw [if_neg (show ¬ policy.mode = "direct" by rw [hmode]; decide),
      if_neg (show ¬ policy.mode ≠ "segment_upstream" by rw [hmode]; simp),
      if_neg (show ¬ policy.strategy = "none" by rw [hstrat]; decide),
      if_neg (show ¬ policy.strategy = "fixed" by rw [hstrat]; decide),
      if_pos hstrat]
  refine ⟨?_, fixed_relay_flatten policy.chunk_size bufs, ?_⟩
  · intro hnone
    rw [hstep]
    rcases hnone with h | h
    · rw [h]
    · rw [h]
      cases policy.min_chunk with
      | none => rfl
      | some mn => rfl
  · intro mn mx hmn hmx
    rw [hstep, hmn, hmx]
    dsimp only
    constructor
    · intro hbad
      unfold relay_client_to_upstream_random_segmented
      rw [if_pos hbad]
    · rintro ⟨hpos, hle⟩ hdr
      have hdraws : ∀ k, mn.toNat ≤ draws k ∧ draws k ≤ mx.toNat := hdr
      have h1 : 1 ≤ mn.toNat := by omega
      have hfold := randRelay_fold draws mn.toNat mx.toNat h1 hdraws bufs ([], 0)
      have hres : relay_client_to_upstream_random_segmented mn mx draws bufs =
          (bufs.foldl
            (fun acc data =>
              let p := randomSlicesGo draws (data.length + 1) acc.2 data
              (acc.1 ++ p.1, p.2)) (([] : List (List Nat)), 0)).1 := by
        unfold relay_client_to_upstream_random_segmented
        rw [if_neg (show ¬ (mn ≤ 0 ∨ mx ≤ 0 ∨ mn > mx) by omega)]
      rw [hres]
      constructor
      · rw [hfold.1]
        rfl
      · intro l hl
        rcases hfold.2 l hl with h2 | h2
        · exact absurd h2 (List.not_mem_nil l)
        · exact h2

/-- C4 witness: the amended theorem applied at a concrete policy with
consistent bounds `[2, 3]`, a draw stream constantly 3, and client bytes
`b"abcdefgh"`, and at a policy with an absent max bound. -/
theorem c4_random_relay_witness :
    ((relay_tunnel_c2u
        { mode := "segment_upstream", strategy := "random", chunk_size := 1024,
          delay_ms := 0, min_chunk := some 2, max_chunk := some 3 }
        (fun _ => 3) [bytesOfString "abcdefgh"]).flatten =
      [bytesOfString "abcdefgh"].flatten ∧
     ∀ l ∈ relay_tunnel_c2u
        { mode := "segment_upstream", strategy := "random", chunk_size := 1024,
          delay_ms := 0, min_chunk := some 2, max_chunk := some 3 }
        (fun _ => 3) [bytesOfString "abcdefgh"],
       1 ≤ l.length ∧ l.length ≤ (3 : Int).toNat) ∧
    relay_tunnel_c2u
        { mode := "segment_upstream", strategy := "random", chunk_size := 3,
          delay_ms := 0, min_chunk := some 2, max_chunk := none }
        (fun _ => 3) [bytesOfString "abcdefgh"] =
      relay_client_to_upstream_segmented 3 [bytesOfString "abcdefgh"] :=
  ⟨((c4_random_relay
      { mode := "segment_upstream", strategy := "random", chunk_size := 1024,
        delay_ms := 0, min_chunk := some 2, max_chunk := some 3 }
      (fun _ => 3) [bytesOfString "abcdefgh"] rfl rfl).2.2 2 3 rfl rfl).2
    (by decide) (fun k => by decide),
   (c4_random_relay
      { mode := "segment_upstream", strategy := "random", chunk_size := 3,
        delay_ms := 0, min_chunk := some 2, max_chunk := none }
      (fun _ => 3) [bytesOfString "abcdefgh"] rfl rfl).1 (Or.inr rfl)⟩

/-! ## Chunked body lemmas (C7) -/

lemma splitAtSub_crlf_boundary : ∀ (line rest : List Nat), 13 ∉ line →
    splitAtSub CRLF (line ++ (CRLF ++ rest)) = some (line ++ CRLF, rest) := by
  intro line
  induction line with
  | nil =>
    intro rest _
    show splitAtSub CRLF (13 :: 10 :: rest) = some ([] ++ CRLF, rest)
    simp only [splitAtSub]
    rw [if_pos (show CRLF.isPrefixOf (13 :: 10 :: rest) = true by
      simp [CRLF, List.isPrefixOf])]
    simp [CRLF]
  | cons a l ih =>
    intro rest h13
    have ha : a ≠ 13 := fun he => h13 (he ▸ List.mem_cons_self a l)
    have h13l : 13 ∉ l := fun hm => h13 (List.mem_cons_of_mem a hm)
    rw [List.cons_append]
    simp only [splitAtSub]
    rw [if_neg (show ¬ (CRLF.isPrefixOf (a :: (l ++ (CRLF ++ rest))) = true) from by
      simp only [CRLF, List.isPrefixOf, Bool.and_eq_true, beq_iff_eq]
      rintro ⟨h1, -⟩
      exact ha h1.symm)]
    rw [ih rest h13l]
    rfl

lemma readUntilCRLF_boundary (line rest : List Nat) (h13 : 13 ∉ line) :
    readUntilCRLF (line ++ CRLF ++ rest) = (line ++ CRLF, rest) := by
  unfold readUntilCRLF
  rw [List.append_assoc, splitAtSub_crlf_boundary line rest h13]

lemma readTrailersFuel_wf : ∀ (tls : List (List Nat)) (fuel : Nat),
    (∀ t ∈ tls, t ≠ [] ∧ 13 ∉ t) → tls.length + 1 ≤ fuel →
    readTrailersFuel fuel ((tls.map (· ++ CRLF)).flatten ++ CRLF) =
      (tls.map (· ++ CRLF)).flatten ++ CRLF := by
  intro tls
  induction tls with
  | nil =>
    intro fuel _ hfuel
    cases fuel with
    | zero => omega
    | succ f =>
      simp only [List.map_nil, List.flatten_nil, List.nil_append]
      simp only [readTrailersFuel]
      rw [show readUntilCRLF CRLF = (CRLF, []) from by
        have hb := readUntilCRLF_boundary [] [] (by simp)
        simpa using hb]
      rfl
  | cons t tls ih =>
    intro fuel h hfuel
    cases fuel with
    | zero => simp only [List.length_cons] at hfuel; omega
    | succ f =>
      obtain ⟨ht1, ht13⟩ := h t (List.mem_cons_self t tls)
      have hrest : ∀ x ∈ tls, x ≠ [] ∧ 13 ∉ x :=
        fun x hx => h x (List.mem_cons_of_mem t hx)
      simp only [List.map_cons, List.flatten_cons]
      simp only [readTrailersFuel]
      rw [List.append_assoc (t ++ CRLF)]
      rw [readUntilCRLF_boundary t _ ht13]
      dsimp only
      rw [if_neg (show ¬ (t ++ CRLF = []) by simp [CRLF])]
      rw [if_neg (show ¬ (t ++ CRLF = CRLF) from by
        intro he
        have hlen := congrArg List.length he
        simp only [List.length_append, CRLF, List.length_cons, List.length_nil] at hlen
        exact ht1 (List.eq_nil_of_length_eq_zero (by omega)))]
      rw [ih f hrest (by simp only [List.length_cons] at hfuel; omega)]

lemma flatten_length_ge_count : ∀ (l : List (List Nat)),
    (∀ x ∈ l, 1 ≤ x.length) → l.length ≤ l.flatten.length := by
  intro l
  induction l with
  | nil => intro _; simp
  | cons x xs ih =>
    intro h
    simp only [List.flatten_cons, List.length_append, List.length_cons]
    have h1 := h x (List.mem_cons_self x xs)
    have h2 := ih (fun y hy => h y (List.mem_cons_of_mem x hy))
    omega

set_option maxHeartbeats 1000000 in
lemma readChunkedFuel_wf (zline : List Nat) (tls : List (List Nat))
    (hz13 : 13 ∉ zline)
    (hz : pyIntHexBytes (rstripCRLFBytes (stripBytes (beforeByte 59 (zline ++ CRLF)))) =
      some 0)
    (htl : ∀ t ∈ tls, t ≠ [] ∧ 13 ∉ t) :
    ∀ (chunks : List (List Nat × List Nat)) (fuel : Nat),
      (∀ p ∈ chunks, 13 ∉ p.1 ∧
        pyIntHexBytes (rstripCRLFBytes (stripBytes (beforeByte 59 (p.1 ++ CRLF)))) =
          some (p.2.length : Int) ∧ p.2 ≠ []) →
      chunks.length + tls.length + 2 ≤ fuel →
      readChunkedFuel fuel
        ((chunks.map fun p => p.1 ++ CRLF ++ p.2 ++ CRLF).flatten ++
          (zline ++ CRLF ++ ((tls.map (· ++ CRLF)).flatten ++ CRLF))) =
        Except.ok ((chunks.map fun p => p.1 ++ CRLF ++ p.2 ++ CRLF).flatten ++
          (zline ++ CRLF ++ ((tls.map (· ++ CRLF)).flatten ++ CRLF))) := by
  intro chunks
  induction chunks with
  | nil =>
    intro fuel _ hfuel
    cases fuel with
    | zero => omega
    | succ f =>
      simp only [List.map_nil, List.flatten_nil, List.nil_append]
      simp only [readChunkedFuel]
      rw [readUntilCRLF_boundary zline _ hz13]
      dsimp only
      rw [if_neg (show ¬ (zline ++ CRLF = []) by simp [CRLF])]
      rw [hz]
      dsimp only
      rw [if_pos rfl]
      rw [readTrailersFuel_wf tls f htl (by omega)]
  | cons c chunks ih =>
    intro fuel h hfuel
    cases fuel with
    | zero => simp only [List.length_cons] at hfuel; omega
    | succ f =>
      obtain ⟨hc13, hcparse, hcne⟩ := h c (List.mem_cons_self c chunks)
      have hrest := fun p hp => h p (List.mem_cons_of_mem c hp)
      simp only [List.map_cons, List.flatten_cons]
      simp only [readChunkedFuel]
      rw [show ((c.1 ++ CRLF ++ c.2 ++ CRLF) ++
          (chunks.map fun p => p.1 ++ CRLF ++ p.2 ++ CRLF).flatten) ++
          (zline ++ CRLF ++ ((tls.map (· ++ CRLF)).flatten ++ CRLF)) =
        (c.1 ++ CRLF) ++ ((c.2 ++ CRLF) ++
          ((chunks.map fun p => p.1 ++ CRLF ++ p.2 ++ CRLF).flatten ++
            (zline ++ CRLF ++ ((tls.map (· ++ CRLF)).flatten ++ CRLF)))) from by
        simp [List.append_assoc]]
      rw [readUntilCRLF_boundary c.1 _ hc13]
      dsimp only
      rw [if_neg (show ¬ (c.1 ++ CRLF = []) by simp [CRLF])]
      rw [hcparse]
      dsimp only
      rw [if_neg (show ¬ ((c.2.length : Int) = 0) from by
        have hpos : 0 < c.2.length := List.length_pos.mpr hcne
        omega)]
      have hclen : (c.2 ++ CRLF).length = c.2.length + 2 := by
        simp [CRLF]
      have hcnt : pySliceLen ((c.2.length : Int) + 2)
          ((c.2 ++ CRLF) ++
            ((chunks.map fun p => p.1 ++ CRLF ++ p.2 ++ CRLF).flatten ++
              (zline ++ CRLF ++ ((tls.map (· ++ CRLF)).flatten ++ CRLF)))).length =
          c.2.length + 2 := by
        unfold pySliceLen
        rw [if_pos (by omega)]
        simp only [List.length_append, CRLF, List.length_cons, List.length_nil]
        omega
      rw [hcnt]
      rw [List.take_left' hclen, List.drop_left' hclen]
      rw [if_neg (show ¬ (((c.2 ++ CRLF).length : Int) < (c.2.length : Int) + 2) from by
        rw [hclen]
        omega)]
      rw [ih f hrest (by simp only [List.length_cons] at hfuel; omega)]
      show Except.ok _ = Except.ok _
      congr 1
      simp [List.append_assoc]

/-- C7: with `transfer-encoding: chunked` and empty buffered initial
bytes, `read_request_body` returns a well-formed RFC 7230 chunk stream
verbatim — size lines (with optional extensions after `;`), chunk data,
CRLFs, the `0` terminator and the trailer section ending in a blank line
are all returned exactly as received; and with non-empty initial bytes it
fails with "Chunked body with buffered bytes not supported yet". -/
theorem c7_chunked_body :
    (∀ (chunks : List (List Nat × List Nat)) (zline : List Nat) (tls : List (List Nat)),
      (∀ p ∈ chunks, 13 ∉ p.1 ∧
        pyIntHexBytes (rstripCRLFBytes (stripBytes (beforeByte 59 (p.1 ++ CRLF)))) =
          some (p.2.length : Int) ∧ p.2 ≠ []) →
      13 ∉ zline →
      pyIntHexBytes (rstripCRLFBytes (stripBytes (beforeByte 59 (zline ++ CRLF)))) =
        some 0 →
      (∀ t ∈ tls, t ≠ [] ∧ 13 ∉ t) →
      read_request_body
        ((chunks.map fun p => p.1 ++ CRLF ++ p.2 ++ CRLF).flatten ++
          (zline ++ CRLF ++ ((tls.map (· ++ CRLF)).flatten ++ CRLF)))
        [] [("transfer-encoding", "chunked")] =
        Except.ok ((chunks.map fun p => p.1 ++ CRLF ++ p.2 ++ CRLF).flatten ++
          (zline ++ CRLF ++ ((tls.map (· ++ CRLF)).flatten ++ CRLF)))) ∧
    (∀ (stream initial : List Nat), initial ≠ [] →
      read_request_body stream initial [("transfer-encoding", "chunked")] =
        Except.error "Chunked body with buffered bytes not supported yet") := by
  constructor
  · intro chunks zline tls hch hz13 hz htl
    have hrrb : read_request_body
        ((chunks.map fun p => p.1 ++ CRLF ++ p.2 ++ CRLF).flatten ++
          (zline ++ CRLF ++ ((tls.map (· ++ CRLF)).flatten ++ CRLF)))
        [] [("transfer-encoding", "chunked")] =
        readChunkedFuel
          (((chunks.map fun p => p.1 ++ CRLF ++ p.2 ++ CRLF).flatten ++
            (zline ++ CRLF ++ ((tls.map (· ++ CRLF)).flatten ++ CRLF))).length + 1)
          ((chunks.map fun p => p.1 ++ CRLF ++ p.2 ++ CRLF).flatten ++
            (zline ++ CRLF ++ ((tls.map (· ++ CRLF)).flatten ++ CRLF))) := rfl
    rw [hrrb]
    have hb1 : chunks.length ≤
        ((chunks.map fun p => p.1 ++ CRLF ++ p.2 ++ CRLF).flatten).length := by
      have hcount := flatten_length_ge_count
        (chunks.map fun p => p.1 ++ CRLF ++ p.2 ++ CRLF) ?_
      · simpa using hcount
      · intro x hx
        rcases List.mem_map.mp hx with ⟨p, _, rfl⟩
        simp only [List.length_append, CRLF, List.length_cons, List.length_nil]
        omega
    have hb2 : tls.length ≤ ((tls.map (· ++ CRLF)).flatten).length := by
      have hcount := flatten_length_ge_count (tls.map (· ++ CRLF)) ?_
      · simpa using hcount
      · intro x hx
        rcases List.mem_map.mp hx with ⟨t, _, rfl⟩
        simp only [List.length_append, CRLF, List.length_cons, List.length_nil]
        omega
    apply readChunkedFuel_wf zline tls hz13 hz htl chunks _ hch
    have hcr : CRLF.length = 2 := rfl
    simp only [List.length_append]
    omega
  · intro stream initial hini
    show (if initial ≠ [] then
        (Except.error "Chunked body with buffered bytes not supported yet" :
          Except String (List Nat))
      else read_chunked_body stream) =
      Except.error "Chunked body with buffered bytes not supported yet"
    rw [if_pos hini]

/-- C7 witness: the theorem applied at the spec's example stream
`4\r\nWiki\r\n5\r\npedia\r\n0\r\n\r\n` (returned verbatim) and at a
non-empty initial buffer (rejected). -/
theorem c7_chunked_body_witness :
    read_request_body (bytesOfString "4\r\nWiki\r\n5\r\npedia\r\n0\r\n\r\n") []
        [("transfer-encoding", "chunked")] =
      Except.ok (bytesOfString "4\r\nWiki\r\n5\r\npedia\r\n0\r\n\r\n") ∧
    read_request_body [] [1] [("transfer-encoding", "chunked")] =
      Except.error "Chunked body with buffered bytes not supported yet" := by
  constructor
  · have h := c7_chunked_body.1
      [([52], [87, 105, 107, 105]), ([53], [112, 101, 100, 105, 97])] [48] []
      (by decide) (by decide) (by decide) (by decide)
    exact h
  · exact c7_chunked_body.2 [] [1] (by decide)

/-! ## DNS transaction-id mismatch (C9) -/

/-- C9 counterexample: a syntactically valid DNS response whose
transaction id (`0xDEAD`) does not match the query's (`0x1A2B = 6699`) is
indeed rejected by `_ensure_txid`, and its answers are real
(`_parse_response` yields `1.2.3.4`); yet with `transport=udp` the whole
resolve does NOT fail: the mismatch `ValueError` is caught, the query is
retried over TCP, and the resolve succeeds with the TCP answers
(`fallback=1`). -/
theorem c9_txid_counterexample :
    _ensure_txid 6699
        [222, 173, 129, 128, 0, 1, 0, 1, 0, 0, 0, 0, 1, 97, 1, 98, 0, 0, 1, 0, 1,
         192, 12, 0, 1, 0, 1, 0, 0, 0, 120, 0, 4, 1, 2, 3, 4] =
      Except.error "DNS response transaction ID mismatch" ∧
    _parse_response
        [222, 173, 129, 128, 0, 1, 0, 1, 0, 0, 0, 0, 1, 97, 1, 98, 0, 0, 1, 0, 1,
         192, 12, 0, 1, 0, 1, 0, 0, 0, 120, 0, 4, 1, 2, 3, 4] 1 =
      Except.ok (["1.2.3.4"], 120, false) ∧
    _resolve_type "udp" "9.9.9.9" 53 6699
        (Except.ok
          [222, 173, 129, 128, 0, 1, 0, 1, 0, 0, 0, 0, 1, 97, 1, 98, 0, 0, 1, 0, 1,
           192, 12, 0, 1, 0, 1, 0, 0, 0, 120, 0, 4, 1, 2, 3, 4])
        (Except.ok
          [26, 43, 129, 128, 0, 1, 0, 1, 0, 0, 0, 0, 1, 97, 1, 98, 0, 0, 1, 0, 1,
           192, 12, 0, 1, 0, 1, 0, 0, 0, 120, 0, 4, 1, 2, 3, 4])
        1 "example.com" 443 =
      Except.ok (["1.2.3.4"], 120, "tcp", 1) :=
  ⟨rfl, rfl, rfl⟩

/-- C9 (amended): a response whose 16-bit transaction id differs from the
query's is always rejected — its answers are never used.  With
`transport=tcp` the resolve then fails with the formatted `DNSProtocol`
error.  With `transport=udp`, however, the mismatch is caught like any
other UDP failure and the query is retried over TCP: the resolve fails
only if the TCP attempt also fails, and otherwise SUCCEEDS with the TCP
answers and `fallback=1`. -/
theorem c9_txid_mismatch (txid : Nat) (data : List Nat)
    (udpResp tcpResp : Except String (List Nat)) (qtype : Nat)
    (host server_ip : String) (port dns_port : Int)
    (hlen : 2 ≤ data.length) (hmm : get2 data 0 ≠ txid) :
    (_resolve_type "tcp" server_ip dns_port txid udpResp (Except.ok data) qtype
        host port =
      Except.error (_format_error host port server_ip dns_port "tcp"
        "DNS response transaction ID mismatch" none)) ∧
    (_resolve_type "udp" server_ip dns_port txid (Except.ok data) tcpResp qtype
        host port =
      match tcpAttempt txid tcpResp qtype with
      | .ok (a, t) => Except.ok (a, t, "tcp", 1)
      | .error tcpE => Except.error (_format_error host port server_ip dns_port
          "udp->tcp" tcpE (some "DNS response transaction ID mismatch"))) := by
  have hens : _ensure_txid txid data =
      Except.error "DNS response transaction ID mismatch" := by
    unfold _ensure_txid
    rw [if_neg (show ¬ (data.length < 2) by omega), if_pos hmm]
  have htcpA : tcpAttempt txid (Except.ok data) qtype =
      Except.error "DNS response transaction ID mismatch" := by
    unfold tcpAttempt
    dsimp only [Bind.bind, Except.bind]
    rw [hens]
  have hudpA : udpAttempt txid (Except.ok data) qtype =
      Except.error "DNS response transaction ID mismatch" := by
    unfold udpAttempt
    dsimp only [Bind.bind, Except.bind]
    rw [hens]
  constructor
  · unfold _resolve_type
    rw [if_pos rfl, htcpA]
  · unfold _resolve_type
    rw [if_neg (show ¬ ("udp" : String) = "tcp" by decide), hudpA]

/-- C9 witness: the amended theorem applied at a two-byte mismatched
response over TCP (resolve fails with the formatted error) and at the
concrete mismatched-UDP / valid-TCP pair (resolve succeeds over TCP with
`fallback=1`). -/
theorem c9_txid_mismatch_witness :
    _resolve_type "tcp" "9.9.9.9" 53 6699 (Except.ok []) (Except.ok [222, 173]) 1
        "example.com" 443 =
      Except.error (_format_error "example.com" 443 "9.9.9.9" 53 "tcp"
        "DNS response transaction ID mismatch" none) ∧
    _resolve_type "udp" "9.9.9.9" 53 6699
        (Except.ok
          [222, 173, 129, 128, 0, 1, 0, 1, 0, 0, 0, 0, 1, 97, 1, 98, 0, 0, 1, 0, 1,
           192, 12, 0, 1, 0, 1, 0, 0, 0, 121, 0, 4, 5, 6, 7, 8])
        (Except.ok
          [26, 43, 129, 128, 0, 1, 0, 1, 0, 0, 0, 0, 1, 97, 1, 98, 0, 0, 1, 0, 1,
           192, 12, 0, 1, 0, 1, 0, 0, 0, 121, 0, 4, 5, 6, 7, 8])
        1 "example.com" 443 =
      Except.ok (["5.6.7.8"], 121, "tcp", 1) := by
  constructor
  · exact (c9_txid_mismatch 6699 [222, 173] (Except.ok []) (Except.ok [222, 173]) 1
      "example.com" "9.9.9.9" 443 53 (by decide) (by decide)).1
  · have h := (c9_txid_mismatch 6699
      [222, 173, 129, 128, 0, 1, 0, 1, 0, 0, 0, 0, 1, 97, 1, 98, 0, 0, 1, 0, 1,
       192, 12, 0, 1, 0, 1, 0, 0, 0, 121, 0, 4, 5, 6, 7, 8]
      (Except.ok
        [222, 173, 129, 128, 0, 1, 0, 1, 0, 0, 0, 0, 1, 97, 1, 98, 0, 0, 1, 0, 1,
         192, 12, 0, 1, 0, 1, 0, 0, 0, 121, 0, 4, 5, 6, 7, 8])
      (Except.ok
        [26, 43, 129, 128, 0, 1, 0, 1, 0, 0, 0, 0, 1, 97, 1, 98, 0, 0, 1, 0, 1,
         192, 12, 0, 1, 0, 1, 0, 0, 0, 121, 0, 4, 5, 6, 7, 8])
      1 "example.com" "9.9.9.9" 443 53 (by decide) (by decide)).2
    rw [h]
    rfl

end SegProxy
